import Mathlib

/-!
# smtplmail: message rewriting and SMTP submission

A shallow embedding of `src/main.go`: recipient extraction
(`extractRecipientsFromHeaders`), sender resolution and header rewriting
(`sendEmail`, lines 279-331), the SMTP exchange (`sendEmail`, lines 333-396)
and the driver (`main`).

The Go standard library is not part of the program.  Its pure, documented
pieces that the program's behaviour hinges on (canonical header keys, the
header map, `Header.Get`, `strings.EqualFold` against an ASCII literal,
`net.JoinHostPort`) are written out; everything that depends on the outside
world or on a large parser (splitting the raw bytes into header lines, RFC 5322
address parsing, the iteration order of a Go map, the answers of the SMTP
server, the file system) is a field of `World`, and theorems quantify over it.
Two documented rules of the library restrict the worlds that can occur: a
`range` loop visits each map entry once (`World.RangeOk`), and
`smtp.PlainAuth` refuses a connection that is neither encrypted nor to
localhost (`World.PlainAuthOk`).
-/

namespace Smtplmail

/-! ## Standard library pieces -/

/-- Token bytes of RFC 7230, as in `textproto.validHeaderFieldByte`:
digits, ASCII letters and the fifteen punctuation bytes with the codes 33,
35-39, 42, 43, 45, 46, 94-96, 124 and 126. -/
def validHeaderFieldByte (c : Char) : Bool :=
  let n := c.toNat
  (48 ≤ n && n ≤ 57) || (65 ≤ n && n ≤ 90) || (97 ≤ n && n ≤ 122) ||
  n == 33 || n == 35 || n == 36 || n == 37 || n == 38 || n == 39 || n == 42 ||
  n == 43 || n == 45 || n == 46 || n == 94 || n == 95 || n == 96 || n == 124 ||
  n == 126

/-- The ASCII upper-case form of a byte (`c -= toLower` for `a..z`). -/
def upperByte (c : Char) : Char :=
  if 97 ≤ c.toNat ∧ c.toNat ≤ 122 then Char.ofNat (c.toNat - 32) else c

/-- The ASCII lower-case form of a byte (`c += toLower` for `A..Z`). -/
def lowerByte (c : Char) : Char :=
  if 65 ≤ c.toNat ∧ c.toNat ≤ 90 then Char.ofNat (c.toNat + 32) else c

/-- The canonicalising loop of `textproto.canonicalMIMEHeaderKey`: upper case
for the first letter and for a letter after a dash, lower case elsewhere. -/
def canonLoop : Bool → List Char → List Char
  | _, [] => []
  | upper, c :: cs =>
    let c1 := if upper then upperByte c else lowerByte c
    c1 :: canonLoop (c1 == '-') cs

/-- Go's `textproto.CanonicalMIMEHeaderKey`: a key made of token bytes only is
canonicalised; any other key (one with a space or another non-token byte) is
returned unchanged. -/
def canonicalMIMEHeaderKey (k : String) : String :=
  if k.data.all validHeaderFieldByte then String.mk (canonLoop true k.data) else k

/-- Go's `strings.EqualFold` restricted to ASCII case folding.  The program
only calls it with the literal `From`, none of whose letters has a non-ASCII
case variant, so on that call it agrees with the Unicode version. -/
def EqualFold (s t : String) : Bool :=
  s.data.map lowerByte == t.data.map lowerByte

/-- A Go `map[string][]string` (`mail.Header`), as an association list with
one entry per key.  The order of the list is a representation detail: Go
leaves the iteration order of a map unspecified (see `World.range`). -/
abbrev Header := List (String × List String)

/-- The map index expression `h[k]`: the values stored under `k`, nil when the key is
absent. -/
def Header.index (h : Header) (k : String) : List String :=
  match h with
  | [] => []
  | (k1, vs) :: rest => if k1 = k then vs else Header.index rest k

/-- The map update `m[key] = append(m[key], value)`. -/
def Header.add (h : Header) (key value : String) : Header :=
  match h with
  | [] => [(key, [value])]
  | (k1, vs) :: rest =>
    if k1 = key then (k1, vs ++ [value]) :: rest else (k1, vs) :: Header.add rest key value

/-- Go's `mail.Header.Get`: the first value stored under the canonical form of
`key`, the empty string when there is none. -/
def Header.Get (h : Header) (key : String) : String :=
  match Header.index h (canonicalMIMEHeaderKey key) with
  | [] => ""
  | v :: _ => v

/-- One step of the loop of `textproto.ReadMIMEHeader`: the key of a header
line is canonicalised, a line with an empty key is skipped, and the value is
appended to the values already stored under the key. -/
def readStep (m : Header) (line : String × String) : Header :=
  let key := canonicalMIMEHeaderKey line.1
  if key = "" then m else Header.add m key line.2

/-- The map `textproto.ReadMIMEHeader` builds from the header lines of a
message, given in input order as (key, value) pairs. -/
def ReadMIMEHeader (lines : List (String × String)) : Header :=
  lines.foldl readStep []

/-- Go's `net.JoinHostPort`: `host:port`, with the host in brackets when it
contains a colon (a literal IPv6 address). -/
def JoinHostPort (host port : String) : String :=
  if host.data.any (fun c => c == ':') then "[" ++ host ++ "]:" ++ port
  else host ++ ":" ++ port

/-! ## Program state and environment -/

/-- The `Config` struct of the program. -/
structure Config where
  SMTPUser : String
  SMTPPassword : String
  SMTPHost : String
  SMTPPort : String
  SMTPSecurity : String
  SendFrom : String
  LogFile : String
  LogLevel : String
  deriving DecidableEq, Repr

/-- The package-level variables the delivery path reads, with the values they
have once `init` has parsed the command line and `loadConfigFromFile` has run
(`deliveryStatusNotification` and `ignoreDots` are set but never read). -/
structure Globals where
  config : Config
  setup : Bool
  recipients : List String
  sender : String
  senderFullName : String
  verbose : Bool
  readRecipientsFromHeaders : Bool
  deriving DecidableEq, Repr

/-- The calls `sendEmail` makes on the network and the log, in the order it
makes them. -/
inductive Action where
  | tlsDial (addr : String)
  | netDial (addr : String)
  | newClient (host : String)
  | extension (ext : String)
  | startTLS (serverName : String)
  | auth (user password host : String)
  | mail (sender : String)
  | rcpt (recipient : String)
  | data
  | write (message : String)
  | closeData
  | close
  | logSent (rcpts : List String)
  deriving DecidableEq, Repr

/-- What the program cannot decide by itself.

* `readHeader message`: the header lines `textproto` reads from the raw
  message, in input order, as (key before the colon, unfolded and trimmed
  value), together with the bytes after the blank line; `none` when the header
  block is malformed.
* `parseAddress`: `mail.ParseAddress`, giving (display name, address).
* `range h`: the order in which a `for k, vv := range h` loop visits the map.
* `reply t a`: whether the call `a`, made after the calls `t`, succeeds (for
  `extension`: whether the server advertises the extension).
* `stdin`, `configFileOk`, `logFileOk`, `setupOk`: the outcomes of reading
  standard input, of `loadConfigFromFile`, of `setupLogging` and of `runSetup`. -/
structure World where
  readHeader : String → Option (List (String × String) × String)
  parseAddress : String → Option (String × String)
  range : Header → Header
  reply : List Action → Action → Bool
  stdin : Option String
  configFileOk : Bool
  logFileOk : Bool
  setupOk : Bool

/-- A `range` loop visits every entry of the map exactly once, in some order. -/
def World.RangeOk (w : World) : Prop := ∀ h : Header, (w.range h).Perm h

/-- The parsed message, Go's `mail.Message`: the header map and the unread body. -/
structure Message where
  Header : Header
  Body : String
  deriving DecidableEq, Repr

/-- Go's `mail.ReadMessage`. -/
def ReadMessage (w : World) (message : String) : Option Message :=
  match w.readHeader message with
  | none => none
  | some (lines, body) => some { Header := ReadMIMEHeader lines, Body := body }

deriving instance DecidableEq for Except

/-- The errors `sendEmail` returns, one per `fmt.Errorf` of the function. -/
inductive SendError where
  | parseMessage   -- "failed to parse email message: %v"
  | noFrom         -- "no From address specified in config or email headers"
  | parseFrom      -- "failed to parse From address: %v"
  | connect        -- "failed to connect to SMTP server: %v"
  | client         -- "failed to create SMTP client: %v"
  | startTLS       -- "failed to start TLS: %v"
  | auth           -- "failed to authenticate: %v"
  | sender         -- "failed to set sender: %v"
  | recipient      -- "failed to set recipient: %v"
  | dataWriter     -- "failed to get Data writer: %v"
  | writeMessage   -- "failed to write message: %v"
  | closeWriter    -- "failed to close Data writer: %v"
  deriving DecidableEq, Repr

/-! ## The program -/

/-- The function `extractRecipientsFromHeaders` (lines 244-261); `none` is the `log.Fatalf`
on a message that does not parse. -/
def extractRecipientsFromHeaders (w : World) (message : String) : Option (List String) :=
  match ReadMessage w message with
  | none => none
  | some msg =>
    let header := msg.Header
    let recipients : List String := []
    let recipients := (Header.index header "To").foldl (fun r addr => r ++ [addr]) recipients
    let recipients := (Header.index header "Cc").foldl (fun r addr => r ++ [addr]) recipients
    let recipients := (Header.index header "Bcc").foldl (fun r addr => r ++ [addr]) recipients
    some recipients

/-- The function `parseEmailAddress` (lines 263-269). -/
def parseEmailAddress (w : World) (address : String) : Option (String × String) :=
  match w.parseAddress address with
  | none => none
  | some (name, address) => some (name, address)

/-- The function `formatEmailAddress` (lines 271-276). -/
def formatEmailAddress (name email : String) : String :=
  if name = "" then email else name ++ " <" ++ email ++ ">"

/-- Sender resolution of `sendEmail` (lines 284-305): the display name and the
address the rest of the function uses. -/
def sendEmail.resolve (g : Globals) (w : World) (msg : Message) :
    Except SendError (String × String) :=
  let sendFrom := g.config.SendFrom
  let sendFrom := if sendFrom = "" then Header.Get msg.Header "From" else sendFrom
  if sendFrom = "" then .error .noFrom
  else
    match parseEmailAddress w sendFrom with
    | none => .error .parseFrom
    | some (name, email) =>
      let email := if g.sender ≠ "" then g.sender else email
      let name := if g.senderFullName ≠ "" then g.senderFullName else name
      .ok (name, email)

/-- The body of the header loop of `sendEmail` (lines 313-322) for one map
entry: the state is the buffer `newBody` and the flag `fromHeaderExists`. -/
def sendEmail.headerStep (sendFrom : String) (st : String × Bool)
    (entry : String × List String) : String × Bool :=
  if EqualFold entry.1 "From" then
    (st.1 ++ ("From: " ++ sendFrom ++ "\r\n"), true)
  else
    (entry.2.foldl (fun buf v => buf ++ (entry.1 ++ ": " ++ v ++ "\r\n")) st.1, st.2)

/-- The message `sendEmail` rebuilds (lines 310-331) from the parsed message
and the formatted sender `sendFrom`. -/
def sendEmail.rebuild (w : World) (msg : Message) (sendFrom : String) : String :=
  let st := (w.range msg.Header).foldl (sendEmail.headerStep sendFrom) ("", false)
  let newBody := if !st.2 then st.1 ++ ("From: " ++ sendFrom ++ "\r\n") else st.1
  let newBody := newBody ++ "\r\n"
  newBody ++ msg.Body

/-- The RCPT loop of `sendEmail` (lines 369-373): the calls made so far and
whether every recipient was accepted. -/
def sendEmail.rcptLoop (w : World) : List Action → List String → List Action × Bool
  | t, [] => (t, true)
  | t, recipient :: rest =>
    if w.reply t (.rcpt recipient) then sendEmail.rcptLoop w (t ++ [.rcpt recipient]) rest
    else (t ++ [.rcpt recipient], false)

/-- Lines 375-396 of `sendEmail`: DATA, the message, the end of data and the
log line, after the calls `t`. -/
def sendEmail.content (g : Globals) (w : World) (rcpts : List String) (message : String)
    (t : List Action) : List Action × Except SendError Unit :=
  if !w.reply t .data then (t ++ [.data], .error .dataWriter)
  else
    let t := t ++ [.data]
    if !w.reply t (.write message) then (t ++ [.write message], .error .writeMessage)
    else
      let t := t ++ [.write message]
      if !w.reply t .closeData then (t ++ [.closeData], .error .closeWriter)
      else
        let t := t ++ [.closeData]
        if g.verbose then (t ++ [.logSent rcpts], .ok ())
        else if g.config.LogLevel = "info" then (t ++ [.logSent rcpts], .ok ())
        else (t, .ok ())

/-- Lines 361-396 of `sendEmail`: AUTH, MAIL, the RCPT loop and the content,
after the calls `t`. -/
def sendEmail.envelope (g : Globals) (w : World) (rcpts : List String) (email message : String)
    (t : List Action) : List Action × Except SendError Unit :=
  let auth := Action.auth g.config.SMTPUser g.config.SMTPPassword g.config.SMTPHost
  if !w.reply t auth then (t ++ [auth], .error .auth)
  else
    let t := t ++ [auth]
    if !w.reply t (.mail email) then (t ++ [.mail email], .error .sender)
    else
      let r := sendEmail.rcptLoop w (t ++ [.mail email]) rcpts
      if !r.2 then (r.1, .error .recipient)
      else sendEmail.content g w rcpts message r.1

/-- Lines 352-396 of `sendEmail`: the optional STARTTLS upgrade and what
follows it, after the calls `t`. -/
def sendEmail.session (g : Globals) (w : World) (rcpts : List String) (email message : String)
    (t : List Action) : List Action × Except SendError Unit :=
  if g.config.SMTPSecurity = "TLS" then
    if w.reply t (.extension "STARTTLS") then
      let t := t ++ [.extension "STARTTLS"]
      if !w.reply t (.startTLS g.config.SMTPHost) then
        (t ++ [.startTLS g.config.SMTPHost], .error .startTLS)
      else sendEmail.envelope g w rcpts email message (t ++ [.startTLS g.config.SMTPHost])
    else sendEmail.envelope g w rcpts email message (t ++ [.extension "STARTTLS"])
  else sendEmail.envelope g w rcpts email message t

/-- The call that opens the connection (lines 334-341 of `sendEmail`):
`tls.Dial` in mode `SSL`, `net.Dial` in every other mode. -/
def sendEmail.dial (g : Globals) : Action :=
  let addr := JoinHostPort g.config.SMTPHost g.config.SMTPPort
  if g.config.SMTPSecurity = "SSL" then Action.tlsDial addr else Action.netDial addr

/-- Lines 333-396 of `sendEmail`: the connection and the SMTP exchange.  Once
the client exists, `defer client.Close()` adds `close` to every return. -/
def sendEmail.transport (g : Globals) (w : World) (rcpts : List String) (email message : String) :
    List Action × Except SendError Unit :=
  let dial := sendEmail.dial g
  if !w.reply [] dial then ([dial], .error .connect)
  else
    let client := Action.newClient g.config.SMTPHost
    if !w.reply [dial] client then ([dial, client], .error .client)
    else
      let r := sendEmail.session g w rcpts email message [dial, client]
      (r.1 ++ [.close], r.2)

/-- The function `sendEmail` (lines 278-397): the calls made and the value returned.  The
copy of the body (line 327) reads from an in-memory string and cannot fail. -/
def sendEmail (g : Globals) (w : World) (rcpts : List String) (message : String) :
    List Action × Except SendError Unit :=
  match ReadMessage w message with
  | none => ([], .error .parseMessage)
  | some msg =>
    match sendEmail.resolve g w msg with
    | .error e => ([], .error e)
    | .ok (name, email) =>
      let sendFrom := formatEmailAddress name email
      let message := sendEmail.rebuild w msg sendFrom
      sendEmail.transport g w rcpts email message

/-- How the process ends: `main` returns, or `log.Fatalf` stops it. -/
inductive Exit where
  | returned
  | fatal (msg : String)
  deriving DecidableEq, Repr

/-- Recipient resolution in `main` (lines 95-97): the header-derived list with
`-t`, the positional arguments otherwise; `none` is the `log.Fatalf` of
`extractRecipientsFromHeaders`. -/
def main.recipients (g : Globals) (w : World) (message : String) : Option (List String) :=
  if g.readRecipientsFromHeaders then extractRecipientsFromHeaders w message
  else some g.recipients

/-- The function `main` (lines 76-108): the calls made on the network and how the process
ends.  With `-setup` only `runSetup` runs. -/
def main (g : Globals) (w : World) : List Action × Exit :=
  if g.setup then
    ([], if w.setupOk then .returned else .fatal "setup failed")
  else if !w.configFileOk then ([], .fatal "Failed to parse configuration file")
  else if !w.logFileOk then ([], .fatal "Failed to open log file")
  else
    match w.stdin with
    | none => ([], .fatal "Failed to read email data")
    | some message =>
      match main.recipients g w message with
      | none => ([], .fatal "Failed to parse email message")
      | some recipients =>
        if recipients.length = 0 then ([], .fatal "No recipients specified")
        else
          match sendEmail g w recipients message with
          | (t, .error _) => (t, .fatal "Failed to send email")
          | (t, .ok _) => (t, .returned)

/-! ## Structured view of the rewritten message and of the trace -/

/-- The header lines one map entry contributes to the rewritten message. -/
def entryLines (sendFrom : String) (entry : String × List String) : List (String × String) :=
  if EqualFold entry.1 "From" then [("From", sendFrom)]
  else entry.2.map (fun v => (entry.1, v))

/-- The header block of the rewritten message as a sequence of (name, value)
lines: the lines of the entries in the order the loop visits them, then the
`From` line when no `From` entry was met. -/
def headerLines (sendFrom : String) (entries : Header) : List (String × String) :=
  entries.flatMap (entryLines sendFrom) ++
    (if entries.any (fun e => EqualFold e.1 "From") then [] else [("From", sendFrom)])

/-- A header line on the wire: `Name: value` and CRLF. -/
def renderLine (l : String × String) : String := l.1 ++ ": " ++ l.2 ++ "\r\n"

/-- A message on the wire: the header lines, one empty CRLF line, the body. -/
def render (lines : List (String × String)) (body : String) : String :=
  String.join (lines.map renderLine) ++ "\r\n" ++ body

/-- The (name, value) pairs stored in a header map, entry by entry. -/
def Header.lines (h : Header) : List (String × String) :=
  h.flatMap (fun e => e.2.map (fun v => (e.1, v)))

/-- The header lines of the input as the parser stores them: names in
canonical form, lines with an empty name dropped. -/
def canonicalLines (lines : List (String × String)) : List (String × String) :=
  (lines.map (fun l => (canonicalMIMEHeaderKey l.1, l.2))).filter (fun l => l.1 ≠ "")

/-- The lines of a header sequence whose name is not `From`. -/
def nonFrom (lines : List (String × String)) : List (String × String) :=
  lines.filter (fun l => !EqualFold l.1 "From")

/-- The keys of a header map. -/
def Header.keys (h : Header) : List String := h.map Prod.fst

/-- In a map built by the parser, the only key that folds to `From` is `From`. -/
def Header.FromCanon (h : Header) : Prop :=
  ∀ e ∈ h, EqualFold e.1 "From" = true → e.1 = "From"

/-- Every RCPT call in the trace was accepted by the server. -/
def Accepted (w : World) (tr : List Action) : Prop :=
  ∀ pre r post, tr = pre ++ Action.rcpt r :: post → w.reply pre (.rcpt r) = true

/-- The calls that come before the RCPT loop. -/
def Action.beforeRcpt : Action → Bool
  | .tlsDial _ | .netDial _ | .newClient _ | .extension _ | .startTLS _ | .auth _ _ _
  | .mail _ => true
  | _ => false

/-- The RCPT calls. -/
def Action.isRcpt : Action → Bool
  | .rcpt _ => true
  | _ => false

/-- The calls `sendEmail` can make once the connection is set up and upgraded:
AUTH, MAIL with the resolved address, RCPT for a listed recipient, DATA, the
rewritten message, the end of data, the log line. -/
def Late (g : Globals) (rcpts : List String) (email message : String) (a : Action) : Prop :=
  a = .auth g.config.SMTPUser g.config.SMTPPassword g.config.SMTPHost ∨ a = .mail email ∨
  (∃ r ∈ rcpts, a = .rcpt r) ∨ a = .data ∨ a = .write message ∨ a = .closeData ∨
  a = .logSent rcpts

/-- The run stopped at a rejected recipient: the calls before the loop, the
recipients accepted so far, the rejected one, and `suffix`. -/
def Stopped (w : World) (rcpts : List String) (out : List Action × Except SendError Unit)
    (suffix : List Action) : Prop :=
  ∃ t0 i r, rcpts.get? i = some r ∧ (∀ a ∈ t0, Action.beforeRcpt a = true) ∧
    out.1 = t0 ++ (rcpts.take i).map Action.rcpt ++ [.rcpt r] ++ suffix ∧
    Accepted w (t0 ++ (rcpts.take i).map Action.rcpt) ∧ out.2 = .error .recipient

/-- The calls that open a connection: `tls.Dial` and `net.Dial`. -/
def Action.isDial : Action → Bool
  | .tlsDial _ | .netDial _ => true
  | _ => false

/-- The STARTTLS upgrade. -/
def Action.isStartTLS : Action → Bool
  | .startTLS _ => true
  | _ => false

/-- The query for an extension of the server. -/
def Action.isExtension : Action → Bool
  | .extension _ => true
  | _ => false

/-- Go's `smtp.isLocalhost`: the host names for which `smtp.PlainAuth` accepts
a connection that is not encrypted. -/
def isLocalhost (name : String) : Bool :=
  name = "localhost" || name = "127.0.0.1" || name = "::1"

/-- Whether the connection is encrypted once the calls `t` have been made: it
was opened with `tls.Dial`, or it was upgraded by `StartTLS` (a failed
upgrade ends the run, so no later call sees it). -/
def encrypted (t : List Action) : Bool :=
  t.any (fun a => match a with
    | .tlsDial _ | .startTLS _ => true
    | _ => false)

/-- The documented rule of Go's `smtp.PlainAuth` (line 333), as a condition on
the answers to `client.Auth`: on a connection that is not encrypted, to a host
that is not localhost, authentication fails without sending the credentials. -/
def World.PlainAuthOk (w : World) : Prop :=
  ∀ (t : List Action) (user password host : String),
    encrypted t = false → isLocalhost host = false →
      w.reply t (.auth user password host) = false

/-- The commands of the exchange after the optional upgrade: AUTH, MAIL,
RCPT, DATA, the message and the end of data. -/
def Action.afterUpgrade : Action → Bool
  | .auth _ _ _ | .mail _ | .rcpt _ | .data | .write _ | .closeData => true
  | _ => false

/-- The log line of a successful run (lines 390-394 of `sendEmail`): written in
verbose mode or at log level `info`. -/
def sendEmail.logCalls (g : Globals) (rcpts : List String) : List Action :=
  if g.verbose then [.logSent rcpts]
  else if g.config.LogLevel = "info" then [.logSent rcpts]
  else []

/-! ## Example inputs -/

/-- A configuration with no default sender and security mode `None`. -/
def exConfig : Config :=
  { SMTPUser := "user", SMTPPassword := "secret", SMTPHost := "localhost", SMTPPort := "25",
    SMTPSecurity := "None", SendFrom := "",
    LogFile := "/var/log/smtplemail/smtplemail.log", LogLevel := "error" }

/-- Command line `smtplmail r@x`: one positional recipient, no other flag. -/
def exGlobals : Globals :=
  { config := exConfig, setup := false, recipients := ["r@x"], sender := "",
    senderFullName := "", verbose := false, readRecipientsFromHeaders := false }

/-- The same command line with a configured default sender `f@x`. -/
def exGlobalsFrom : Globals :=
  { config := { exConfig with SendFrom := "f@x" }, setup := false, recipients := ["r@x"],
    sender := "", senderFullName := "", verbose := false, readRecipientsFromHeaders := false }

/-- Command line `smtplmail -f s@x r@x`. -/
def exGlobalsSender : Globals :=
  { config := exConfig, setup := false, recipients := ["r@x"], sender := "s@x",
    senderFullName := "", verbose := false, readRecipientsFromHeaders := false }

/-- Command line `smtplmail -f s@x -F N r@x`. -/
def exGlobalsOverride : Globals :=
  { config := exConfig, setup := false, recipients := ["r@x"], sender := "s@x",
    senderFullName := "N", verbose := false, readRecipientsFromHeaders := false }

/-- Security mode `TLS` with the default sender `f@x`. -/
def exGlobalsTLS : Globals :=
  { config := { exConfig with SMTPSecurity := "TLS", SendFrom := "f@x" }, setup := false,
    recipients := ["r@x"], sender := "", senderFullName := "", verbose := false,
    readRecipientsFromHeaders := false }

/-- Command line `smtplmail` with no recipient and no `-t`. -/
def exGlobalsNone : Globals :=
  { config := exConfig, setup := false, recipients := [], sender := "",
    senderFullName := "", verbose := false, readRecipientsFromHeaders := false }

/-- Go's `mail.ParseAddress` on the addresses of the examples: `Old <old@x>` has a
display name, the empty string is not an address, any other example string is
a bare address. -/
def exParseAddress (s : String) : Option (String × String) :=
  if s = "Old <old@x>" then some ("Old", "old@x")
  else if s = "" then none
  else some ("", s)

/-- A world in which the message read has the header lines `lines` and the
body `body`, the header map is visited in the order `range`, and the server
accepts every command and advertises every extension. -/
def exWorld (lines : List (String × String)) (body : String) (range : Header → Header) : World :=
  { readHeader := fun _ => some (lines, body), parseAddress := exParseAddress, range := range,
    reply := fun _ _ => true, stdin := some "", configFileOk := true, logFileOk := true,
    setupOk := true }

/-- A world like `exWorld` for a message with the single header `To: r@x`, in
which the server rejects the recipient `bad@x` and accepts everything else. -/
def exWorldReject : World :=
  { readHeader := fun _ => some ([("To", "r@x")], "hello"), parseAddress := exParseAddress,
    range := id, reply := fun _ a => decide (a ≠ Action.rcpt "bad@x"), stdin := some "",
    configFileOk := true, logFileOk := true, setupOk := true }

/-- Security mode `TLS`, default sender `f@x`, and a server that is not on
the local machine. -/
def exGlobalsRemoteTLS : Globals :=
  { config :=
      { SMTPUser := "user", SMTPPassword := "secret", SMTPHost := "mail.example.com",
        SMTPPort := "25", SMTPSecurity := "TLS", SendFrom := "f@x",
        LogFile := "/var/log/smtplemail/smtplemail.log", LogLevel := "error" },
    setup := false, recipients := ["r@x"], sender := "", senderFullName := "",
    verbose := false, readRecipientsFromHeaders := false }

/-- A world for a message with the single header `To: r@x` in which the server
advertises no extension and every call succeeds. -/
def exWorldNoStartTLS : World :=
  { readHeader := fun _ => some ([("To", "r@x")], "hello"), parseAddress := exParseAddress,
    range := id, reply := fun _ a => !Action.isExtension a, stdin := some "",
    configFileOk := true, logFileOk := true, setupOk := true }

/-- A world for a message with the single header `To: r@x` in which the server
advertises no extension and accepts every command, and `client.Auth` follows
the rule of `smtp.PlainAuth`: it succeeds on an encrypted connection or for a
localhost server only. -/
def exWorldCleartext : World :=
  { readHeader := fun _ => some ([("To", "r@x")], "hello"), parseAddress := exParseAddress,
    range := id,
    reply := fun t a => match a with
      | .extension _ => false
      | .auth _ _ host => encrypted t || isLocalhost host
      | _ => true,
    stdin := some "", configFileOk := true, logFileOk := true, setupOk := true }

/-! ## Lemmas -/

theorem join_append (xs ys : List String) : String.join (xs ++ ys) = String.join xs ++ String.join ys := by
  have h : ∀ (zs : List String) (acc : String), List.foldl (fun r s => r ++ s) acc zs = acc ++ String.join zs := by
    intro zs
    induction zs with
    | nil => intro acc; simp [String.join]
    | cons z zs ih =>
      intro acc
      simp only [List.foldl_cons, String.join]
      rw [ih, ih ("" ++ z)]
      simp [String.append_assoc]
  simp only [String.join, List.foldl_append]
  rw [h ys, h xs, h ys]
  simp

theorem valuesLoop (k : String) (vs : List String) (buf : String) :
    vs.foldl (fun b v => b ++ (k ++ ": " ++ v ++ "\r\n")) buf
      = buf ++ String.join ((vs.map (fun v => (k, v))).map renderLine) := by
  induction vs generalizing buf with
  | nil => simp [String.join]
  | cons v vs ih =>
    simp only [List.foldl_cons, List.map_cons]
    rw [ih]
    have : String.join (renderLine (k, v) :: List.map renderLine (List.map (fun v => (k, v)) vs))
        = renderLine (k, v) ++ String.join (List.map renderLine (List.map (fun v => (k, v)) vs)) := by
      have := join_append [renderLine (k, v)] (List.map renderLine (List.map (fun v => (k, v)) vs))
      simpa [String.join] using this
    rw [this]
    simp [renderLine, String.append_assoc]

theorem headerLoop (sendFrom : String) (entries : Header) (buf : String) (b : Bool) :
    entries.foldl (sendEmail.headerStep sendFrom) (buf, b)
      = (buf ++ String.join ((entries.flatMap (entryLines sendFrom)).map renderLine),
         b || entries.any (fun e => EqualFold e.1 "From")) := by
  induction entries generalizing buf b with
  | nil => simp [String.join]
  | cons e es ih =>
    simp only [List.foldl_cons, List.flatMap_cons, List.map_append, List.any_cons]
    by_cases h : EqualFold e.1 "From" = true
    · simp only [sendEmail.headerStep, h, if_true, entryLines]
      rw [ih, join_append, ← String.append_assoc]
      simp [String.join, renderLine, String.append_assoc]
    · simp only [sendEmail.headerStep, h, entryLines]
      simp only [Bool.false_eq_true, if_false]
      rw [ih, valuesLoop, join_append, String.append_assoc]
      simp

theorem rebuild_eq (w : World) (msg : Message) (sendFrom : String) :
    sendEmail.rebuild w msg sendFrom = render (headerLines sendFrom (w.range msg.Header)) msg.Body := by
  simp only [sendEmail.rebuild, headerLoop, render, headerLines]
  by_cases h : (w.range msg.Header).any (fun e => EqualFold e.1 "From") = true
  · simp [h, String.join]
  · simp only [Bool.not_eq_true] at h
    simp only [h]
    simp [join_append, String.join, renderLine, String.append_assoc]

theorem char_cases (P : Char → Prop)
    (hin : ∀ n, 65 ≤ n → n ≤ 122 → P (Char.ofNat n))
    (hout : ∀ c : Char, (c.toNat < 65 ∨ 122 < c.toNat) → P c) (c : Char) : P c := by
  by_cases h : 65 ≤ c.toNat ∧ c.toNat ≤ 122
  · have := hin c.toNat h.1 h.2
    rwa [Char.ofNat_toNat] at this
  · exact hout c (by omega)

theorem upperByte_out (c : Char) (h : c.toNat < 65 ∨ 122 < c.toNat) : upperByte c = c := by
  unfold upperByte
  rw [if_neg (by omega)]

theorem lowerByte_out (c : Char) (h : c.toNat < 65 ∨ 122 < c.toNat) : lowerByte c = c := by
  unfold lowerByte
  rw [if_neg (by omega)]

theorem first_F (a : Char) (h : lowerByte (upperByte a) = 'f') : upperByte a = 'F' := by
  revert h
  refine char_cases (fun a => lowerByte (upperByte a) = 'f' → upperByte a = 'F') ?_ ?_ a
  · intro n h1 h2
    interval_cases n <;> decide
  · intro c hc h
    rw [upperByte_out c hc, lowerByte_out c hc] at h
    subst h
    revert hc
    decide

theorem later_lower (y : Char) (hy : y = 'r' ∨ y = 'o' ∨ y = 'm') (b : Char)
    (h : lowerByte (lowerByte b) = y) : lowerByte b = y := by
  revert h
  refine char_cases (fun b => lowerByte (lowerByte b) = y → lowerByte b = y) ?_ ?_ b
  · intro n h1 h2
    rcases hy with rfl | rfl | rfl <;> interval_cases n <;> decide
  · intro c hc h
    rw [lowerByte_out c hc] at h ⊢
    rw [lowerByte_out c hc] at h
    exact h

theorem lower_valid (y : Char) (hy : y = 'f' ∨ y = 'r' ∨ y = 'o' ∨ y = 'm') (b : Char)
    (h : lowerByte b = y) : validHeaderFieldByte b = true := by
  revert h
  refine char_cases (fun b => lowerByte b = y → validHeaderFieldByte b = true) ?_ ?_ b
  · intro n h1 h2
    rcases hy with rfl | rfl | rfl | rfl <;> interval_cases n <;> decide
  · intro c hc h
    rw [lowerByte_out c hc] at h
    subst h
    rcases hy with rfl | rfl | rfl | rfl <;> decide

theorem fromData : "From".data.map lowerByte = ['f', 'r', 'o', 'm'] := by decide

/-- A canonical key that folds to `From` is `From`. -/
theorem canonical_from (k : String) (h : EqualFold (canonicalMIMEHeaderKey k) "From" = true) :
    canonicalMIMEHeaderKey k = "From" := by
  unfold EqualFold at h
  rw [fromData] at h
  simp only [beq_iff_eq] at h
  unfold canonicalMIMEHeaderKey at h ⊢
  by_cases hv : k.data.all validHeaderFieldByte = true
  · rw [if_pos hv] at h ⊢
    simp only at h
    match hk : k.data, h with
    | [a, b, c, d], h =>
      simp only [canonLoop, List.map_cons, List.map_nil, List.cons.injEq, and_true, if_true] at h
      obtain ⟨h1, h2, h3, h4⟩ := h
      have e1 := first_F a h1
      rw [e1] at h2 h3 h4
      simp only [show (('F' == '-') = false) from by decide] at h2 h3 h4
      simp only [Bool.false_eq_true, if_false] at h2 h3 h4
      have e2 := later_lower 'r' (by simp) b h2
      rw [e2] at h3 h4
      simp only [show (('r' == '-') = false) from by decide] at h3 h4
      simp only [Bool.false_eq_true, if_false] at h3 h4
      have e3 := later_lower 'o' (by simp) c h3
      rw [e3] at h4
      simp only [show (('o' == '-') = false) from by decide] at h4
      simp only [Bool.false_eq_true, if_false] at h4
      have e4 := later_lower 'm' (by simp) d h4
      simp only [canonLoop, if_true, e1, show (('F' == '-') = false) from by decide,
        Bool.false_eq_true, if_false, e2, show (('r' == '-') = false) from by decide, e3,
        show (('o' == '-') = false) from by decide, e4]
    | [], h => simp [canonLoop] at h
    | [_], h => simp [canonLoop] at h
    | [_, _], h => simp [canonLoop] at h
    | [_, _, _], h => simp [canonLoop] at h
    | _ :: _ :: _ :: _ :: _ :: _, h => simp [canonLoop] at h
  · rw [if_neg hv] at h ⊢
    exfalso
    apply hv
    match hk : k.data, h with
    | [a, b, c, d], h =>
      simp only [List.map_cons, List.map_nil, List.cons.injEq, and_true] at h
      obtain ⟨h1, h2, h3, h4⟩ := h
      simp [lower_valid 'f' (by simp) a h1, lower_valid 'r' (by simp) b h2,
        lower_valid 'o' (by simp) c h3, lower_valid 'm' (by simp) d h4]
    | [], h => simp at h
    | [_], h => simp at h
    | [_, _], h => simp at h
    | [_, _, _], h => simp at h
    | _ :: _ :: _ :: _ :: _ :: _, h => simp at h

theorem add_lines (m : Header) (k v : String) :
    (Header.add m k v).lines.Perm (m.lines ++ [(k, v)]) := by
  induction m with
  | nil => simp [Header.add, Header.lines]
  | cons e m ih =>
    obtain ⟨k1, vs⟩ := e
    unfold Header.add
    by_cases h : k1 = k
    · subst h
      simp only [if_true, Header.lines, List.flatMap_cons, List.map_append, List.map_cons,
        List.map_nil, List.append_assoc]
      refine List.Perm.append_left _ ?_
      exact List.perm_append_comm
    · simp only [h, if_false]
      simp only [Header.lines, List.flatMap_cons, List.append_assoc] at ih ⊢
      exact List.Perm.append_left _ ih

theorem add_keys (m : Header) (k v : String) :
    (Header.add m k v).keys = if k ∈ m.keys then m.keys else m.keys ++ [k] := by
  induction m with
  | nil => simp [Header.add, Header.keys]
  | cons e m ih =>
    obtain ⟨k1, vs⟩ := e
    unfold Header.add
    by_cases h : k1 = k
    · subst h
      simp [Header.keys]
    · simp only [h, if_false]
      simp only [Header.keys, List.map_cons, List.mem_cons] at ih ⊢
      rw [ih]
      have h2 : ¬ k = k1 := fun e => h e.symm
      simp only [h2, false_or]
      split <;> simp

theorem add_nodup (m : Header) (k v : String) (h : m.keys.Nodup) :
    (Header.add m k v).keys.Nodup := by
  rw [add_keys]
  split
  · exact h
  · rename_i hk
    exact List.Nodup.append h (by simp) (by simpa using hk)

theorem add_index (m : Header) (k v k2 : String) :
    Header.index (Header.add m k v) k2
      = if k = k2 then Header.index m k2 ++ [v] else Header.index m k2 := by
  induction m with
  | nil =>
    by_cases h : k = k2 <;> simp [Header.add, Header.index, h]
  | cons e m ih =>
    obtain ⟨k1, vs⟩ := e
    unfold Header.add
    by_cases h : k1 = k
    · subst h
      by_cases h2 : k1 = k2 <;> simp [Header.index, h2]
    · simp only [h, if_false]
      by_cases h2 : k1 = k2
      · subst h2
        have h3 : ¬ k = k1 := fun e => h e.symm
        simp [Header.index, h3]
      · simp only [Header.index, h2, if_false]
        exact ih

theorem add_fromCanon (m : Header) (k v : String) (h : m.FromCanon)
    (hk : EqualFold k "From" = true → k = "From") : (Header.add m k v).FromCanon := by
  intro e he
  have : e.1 ∈ (Header.add m k v).keys := List.mem_map_of_mem _ he
  rw [add_keys] at this
  have hm : ∀ x ∈ m.keys, EqualFold x "From" = true → x = "From" := by
    intro x hx
    obtain ⟨e1, he1, rfl⟩ := List.mem_map.1 hx
    exact h e1 he1
  split at this
  · exact hm _ this
  · rcases List.mem_append.1 this with h1 | h1
    · exact hm _ h1
    · simp only [List.mem_singleton] at h1
      rw [h1]; exact hk

theorem read_lines (lines : List (String × String)) (m : Header) :
    (lines.foldl readStep m).lines.Perm (m.lines ++ canonicalLines lines) := by
  induction lines generalizing m with
  | nil => simp [canonicalLines]
  | cons l ls ih =>
    simp only [List.foldl_cons]
    refine (ih _).trans ?_
    unfold readStep
    by_cases h : canonicalMIMEHeaderKey l.1 = ""
    · simp [h, canonicalLines]
    · simp only [h, if_false]
      have : canonicalLines (l :: ls) = (canonicalMIMEHeaderKey l.1, l.2) :: canonicalLines ls := by
        simp [canonicalLines, h]
      rw [this]
      have h2 := (add_lines m (canonicalMIMEHeaderKey l.1) l.2).append_right (canonicalLines ls)
      simpa using h2

theorem read_nodup (lines : List (String × String)) (m : Header) (h : m.keys.Nodup) :
    (lines.foldl readStep m).keys.Nodup := by
  induction lines generalizing m with
  | nil => simpa using h
  | cons l ls ih =>
    simp only [List.foldl_cons]
    apply ih
    unfold readStep
    simp only
    split
    · exact h
    · exact add_nodup _ _ _ h

theorem read_fromCanon (lines : List (String × String)) (m : Header) (h : m.FromCanon) :
    (lines.foldl readStep m).FromCanon := by
  induction lines generalizing m with
  | nil => simpa using h
  | cons l ls ih =>
    simp only [List.foldl_cons]
    apply ih
    unfold readStep
    simp only
    split
    · exact h
    · exact add_fromCanon _ _ _ h (canonical_from l.1)

theorem read_index (lines : List (String × String)) (m : Header) (k : String) :
    Header.index (lines.foldl readStep m) k
      = Header.index m k ++ ((canonicalLines lines).filter (fun l => l.1 = k)).map Prod.snd := by
  induction lines generalizing m with
  | nil => simp [canonicalLines]
  | cons l ls ih =>
    simp only [List.foldl_cons]
    rw [ih]
    unfold readStep
    by_cases h : canonicalMIMEHeaderKey l.1 = ""
    · simp [h, canonicalLines]
    · simp only [h, if_false]
      have : canonicalLines (l :: ls) = (canonicalMIMEHeaderKey l.1, l.2) :: canonicalLines ls := by
        simp [canonicalLines, h]
      rw [this, add_index]
      by_cases h2 : canonicalMIMEHeaderKey l.1 = k
      · simp [h2, List.filter_cons]
      · simp [h2, List.filter_cons]

theorem ReadMIMEHeader_nodup (lines : List (String × String)) :
    (ReadMIMEHeader lines).keys.Nodup := read_nodup lines [] (by simp [Header.keys])

theorem ReadMIMEHeader_fromCanon (lines : List (String × String)) :
    (ReadMIMEHeader lines).FromCanon := read_fromCanon lines [] (by intro e he; simp at he)

theorem ReadMIMEHeader_lines (lines : List (String × String)) :
    (ReadMIMEHeader lines).lines.Perm (canonicalLines lines) := by
  simpa [Header.lines] using read_lines lines []

theorem ReadMIMEHeader_index (lines : List (String × String)) (k : String) :
    Header.index (ReadMIMEHeader lines) k
      = ((canonicalLines lines).filter (fun l => l.1 = k)).map Prod.snd := by
  simpa [Header.index] using read_index lines [] k

theorem equalFold_From : EqualFold "From" "From" = true := by decide

theorem nonFrom_entryLines (sf : String) (e : String × List String) :
    nonFrom (entryLines sf e) = nonFrom (e.2.map (fun v => (e.1, v))) := by
  unfold entryLines
  by_cases h : EqualFold e.1 "From" = true
  · simp only [h, if_true]
    simp [nonFrom, equalFold_From, List.filter_eq_nil_iff, h]
  · simp [h]

theorem nonFrom_append (xs ys : List (String × String)) :
    nonFrom (xs ++ ys) = nonFrom xs ++ nonFrom ys := by
  simp [nonFrom]

theorem nonFrom_flatMap (sf : String) (entries : Header) :
    nonFrom (entries.flatMap (entryLines sf)) = nonFrom entries.lines := by
  induction entries with
  | nil => simp [Header.lines]
  | cons e es ih =>
    simp only [List.flatMap_cons, Header.lines, nonFrom_append] at ih ⊢
    rw [ih, nonFrom_entryLines]

theorem nonFrom_headerLines (sf : String) (entries : Header) :
    nonFrom (headerLines sf entries) = nonFrom entries.lines := by
  unfold headerLines
  rw [nonFrom_append, nonFrom_flatMap]
  split
  · simp [nonFrom]
  · simp [nonFrom, equalFold_From]

theorem lines_cons (e : String × List String) (es : Header) :
    Header.lines (e :: es) = e.2.map (fun v => (e.1, v)) ++ Header.lines es := by
  simp [Header.lines]

theorem lines_append (xs ys : Header) :
    Header.lines (xs ++ ys) = Header.lines xs ++ Header.lines ys := by
  simp [Header.lines]

theorem lines_perm {xs ys : Header} (h : xs.Perm ys) : (Header.lines xs).Perm (Header.lines ys) :=
  List.Perm.flatMap_right _ h

theorem keys_perm {xs ys : Header} (h : xs.Perm ys) : (Header.keys xs).Perm (Header.keys ys) :=
  List.Perm.map _ h

theorem fromCanon_perm {xs ys : Header} (h : xs.Perm ys) (hc : Header.FromCanon ys) :
    Header.FromCanon xs := fun e he => hc e (h.subset he)

theorem index_not_mem (h : Header) (k : String) (hk : k ∉ h.keys) : Header.index h k = [] := by
  induction h with
  | nil => rfl
  | cons e es ih =>
    obtain ⟨k1, vs⟩ := e
    simp only [Header.keys, List.map_cons, List.mem_cons, not_or] at hk
    have h1 : ¬ k1 = k := fun e => hk.1 e.symm
    simp only [Header.index, h1, if_false]
    exact ih hk.2

theorem index_mem (h : Header) (k : String) (vs : List String) (hn : h.keys.Nodup)
    (hm : (k, vs) ∈ h) : Header.index h k = vs := by
  induction h with
  | nil => simp at hm
  | cons e es ih =>
    obtain ⟨k1, vs1⟩ := e
    simp only [Header.keys, List.map_cons, List.nodup_cons] at hn
    rcases List.mem_cons.1 hm with h1 | h1
    · cases h1
      simp [Header.index]
    · have hk : k ∈ es.map Prod.fst := List.mem_map.2 ⟨(k, vs), h1, rfl⟩
      have h2 : ¬ k1 = k := fun e => hn.1 (e ▸ hk)
      simp only [Header.index, h2, if_false]
      exact ih hn.2 h1

theorem index_perm {xs ys : Header} (h : xs.Perm ys) (hn : ys.keys.Nodup) (k : String) :
    Header.index xs k = Header.index ys k := by
  have hx : xs.keys.Nodup := (keys_perm h).nodup_iff.2 hn
  by_cases hk : k ∈ ys.keys
  · obtain ⟨e, he, rfl⟩ := List.mem_map.1 hk
    rw [index_mem ys e.1 e.2 hn he, index_mem xs e.1 e.2 hx (h.symm.subset he)]
  · rw [index_not_mem ys k hk, index_not_mem xs k (fun h1 => hk ((keys_perm h).subset h1))]

theorem lines_filter (h : Header) (k : String) (hn : h.keys.Nodup) :
    h.lines.filter (fun l => l.1 = k) = (Header.index h k).map (fun v => (k, v)) := by
  induction h with
  | nil => simp [Header.lines, Header.index]
  | cons e es ih =>
    obtain ⟨k1, vs⟩ := e
    simp only [Header.keys, List.map_cons, List.nodup_cons] at hn
    rw [lines_cons, List.filter_append, ih hn.2]
    by_cases h1 : k1 = k
    · subst h1
      have : Header.index es k1 = [] := index_not_mem es k1 hn.1
      simp [Header.index, this, List.filter_eq_self]
    · simp [Header.index, h1, List.filter_eq_nil_iff]

theorem canonical_filter (lines : List (String × String)) (k : String) :
    (((canonicalLines lines).filter (fun l => l.1 = k)).map Prod.snd).map (fun v => (k, v))
      = (canonicalLines lines).filter (fun l => l.1 = k) := by
  generalize canonicalLines lines = xs
  induction xs with
  | nil => rfl
  | cons x xs ih =>
    by_cases h : x.1 = k
    · simp only [List.filter_cons, h, decide_True, if_true, List.map_cons, ih]
      rw [← h]
    · simp only [List.filter_cons, h, decide_False, Bool.false_eq_true, if_false, ih]

/-- The lines named `k` of a parsed header, however the map is traversed, are
the input lines named `k`, in input order. -/
theorem range_filter (lines : List (String × String)) (entries : Header)
    (h : entries.Perm (ReadMIMEHeader lines)) (k : String) :
    entries.lines.filter (fun l => l.1 = k) = (canonicalLines lines).filter (fun l => l.1 = k) := by
  have hn := ReadMIMEHeader_nodup lines
  rw [lines_filter entries k ((keys_perm h).nodup_iff.2 hn), index_perm h hn,
    ReadMIMEHeader_index, canonical_filter]

theorem flatMap_noFrom (sf : String) (entries : Header)
    (h : ∀ e ∈ entries, EqualFold e.1 "From" = false) :
    entries.flatMap (entryLines sf) = entries.lines ∧
      entries.any (fun e => EqualFold e.1 "From") = false ∧
      ∀ l ∈ entries.lines, EqualFold l.1 "From" = false := by
  induction entries with
  | nil => simp [Header.lines]
  | cons e es ih =>
    have h1 := h e (List.mem_cons_self _ _)
    obtain ⟨i1, i2, i3⟩ := ih (fun x hx => h x (List.mem_cons_of_mem _ hx))
    refine ⟨?_, ?_, ?_⟩
    · rw [lines_cons, List.flatMap_cons, i1]
      simp [entryLines, h1]
    · simp [h1, i2]
    · intro l hl
      rw [lines_cons] at hl
      rcases List.mem_append.1 hl with h2 | h2
      · obtain ⟨v, _, rfl⟩ := List.mem_map.1 h2
        exact h1
      · exact i3 l h2

/-- The header block when the traversal meets a `From` key: the lines of the
entries visited before it, the rewritten `From` line, the lines of the
entries visited after it. -/
theorem headerLines_split (sf : String) (before after : Header) (k : String) (vs : List String)
    (hk : EqualFold k "From" = true)
    (hn : (Header.keys (before ++ (k, vs) :: after)).Nodup)
    (hc : Header.FromCanon (before ++ (k, vs) :: after)) :
    headerLines sf (before ++ (k, vs) :: after)
        = before.lines ++ ("From", sf) :: after.lines ∧
      (∀ l ∈ before.lines, EqualFold l.1 "From" = false) ∧
      (∀ l ∈ after.lines, EqualFold l.1 "From" = false) := by
  have hkF : k = "From" := hc (k, vs) (by simp) hk
  have hother : ∀ e ∈ before ++ after, EqualFold e.1 "From" = false := by
    intro e he
    by_contra hne
    simp only [Bool.not_eq_false] at hne
    have heF : e.1 = "From" :=
      hc e (by rcases List.mem_append.1 he with h | h <;> simp [h]) hne
    simp only [Header.keys, List.map_append, List.map_cons] at hn
    have hn2 := List.nodup_middle.1 hn
    rw [List.nodup_cons] at hn2
    apply hn2.1
    rw [hkF, ← heF, ← List.map_append]
    exact List.mem_map_of_mem _ he
  obtain ⟨b1, b2, b3⟩ := flatMap_noFrom sf before (fun e he => hother e (by simp [he]))
  obtain ⟨a1, a2, a3⟩ := flatMap_noFrom sf after (fun e he => hother e (by simp [he]))
  refine ⟨?_, b3, a3⟩
  unfold headerLines
  simp only [List.flatMap_append, List.flatMap_cons, b1, a1, List.any_append, List.any_cons, hk,
    Bool.true_or, Bool.or_true, if_true, List.append_nil]
  simp [entryLines, hk]

theorem headerLines_noFrom (sf : String) (entries : Header)
    (h : ∀ e ∈ entries, EqualFold e.1 "From" = false) :
    headerLines sf entries = entries.lines ++ [("From", sf)] := by
  obtain ⟨h1, h2, _⟩ := flatMap_noFrom sf entries h
  unfold headerLines
  rw [h1, h2]
  simp

/-- Exactly one line of the rebuilt header block is a `From` line. -/
theorem headerLines_from (sf : String) (entries : Header) (hn : entries.keys.Nodup)
    (hc : entries.FromCanon) :
    (headerLines sf entries).filter (fun l => EqualFold l.1 "From") = [("From", sf)] := by
  by_cases h : ∀ e ∈ entries, EqualFold e.1 "From" = false
  · rw [headerLines_noFrom sf entries h]
    obtain ⟨_, _, h3⟩ := flatMap_noFrom sf entries h
    rw [List.filter_append, List.filter_eq_nil_iff.2 (by simpa using h3)]
    simp [equalFold_From]
  · push_neg at h
    obtain ⟨e, he, hf⟩ := h
    simp only [ne_eq, Bool.not_eq_false] at hf
    obtain ⟨before, after, rfl⟩ := List.append_of_mem he
    obtain ⟨k, vs⟩ := e
    obtain ⟨h1, h2, h3⟩ := headerLines_split sf before after k vs hf hn hc
    rw [h1, List.filter_append, List.filter_cons, List.filter_eq_nil_iff.2 (by simpa using h2),
      List.filter_eq_nil_iff.2 (by simpa using h3)]
    simp [equalFold_From]

theorem accepted_of_noRcpt (w : World) (tr : List Action) (h : ∀ a ∈ tr, Action.isRcpt a = false) :
    Accepted w tr := by
  intro pre r post e
  have := h (.rcpt r) (by rw [e]; simp)
  simp [Action.isRcpt] at this

theorem accepted_append (w : World) (t s : List Action) (ht : Accepted w t)
    (hs : ∀ a ∈ s, Action.isRcpt a = false) : Accepted w (t ++ s) := by
  intro pre r post e
  rcases List.append_eq_append_iff.1 e with ⟨a, _, h2⟩ | ⟨c, h1, h2⟩
  · have := hs (.rcpt r) (by rw [h2]; simp)
    simp [Action.isRcpt] at this
  · cases c with
    | nil =>
      have := hs (.rcpt r) (by simp only [List.nil_append] at h2; rw [← h2]; simp)
      simp [Action.isRcpt] at this
    | cons x c =>
      simp only [List.cons_append, List.cons.injEq] at h2
      exact ht pre r c (by rw [h1, h2.1])

theorem accepted_snoc (w : World) (t : List Action) (r : String) (ht : Accepted w t)
    (hr : w.reply t (.rcpt r) = true) : Accepted w (t ++ [.rcpt r]) := by
  intro pre r1 post e
  rcases List.append_eq_append_iff.1 e with ⟨a, h1, h2⟩ | ⟨c, h1, h2⟩
  · cases a with
    | nil =>
      simp only [List.nil_append, List.cons.injEq, Action.rcpt.injEq] at h2
      simp only [List.append_nil] at h1
      rw [h1, ← h2.1]; exact hr
    | cons x a =>
      simp only [List.cons_append, List.cons.injEq] at h2
      have := congrArg List.length h2.2
      simp at this
      omega
  · cases c with
    | nil =>
      simp only [List.nil_append, List.cons.injEq, Action.rcpt.injEq] at h2
      simp only [List.append_nil] at h1
      rw [← h1, h2.1]; exact hr
    | cons x c =>
      simp only [List.cons_append, List.cons.injEq] at h2
      exact ht pre r1 c (by rw [h1, h2.1])

/-- The RCPT loop: either every recipient was submitted and accepted, or the
loop stopped at the first rejected recipient. -/
theorem rcptLoop_shape (w : World) (rcpts : List String) (t : List Action) (ht : Accepted w t) :
    ((sendEmail.rcptLoop w t rcpts).2 = true ∧
        (sendEmail.rcptLoop w t rcpts).1 = t ++ rcpts.map Action.rcpt ∧
        Accepted w (sendEmail.rcptLoop w t rcpts).1) ∨
    ((sendEmail.rcptLoop w t rcpts).2 = false ∧
      ∃ i r, rcpts.get? i = some r ∧
        (sendEmail.rcptLoop w t rcpts).1 = t ++ (rcpts.take i).map Action.rcpt ++ [.rcpt r] ∧
        Accepted w (t ++ (rcpts.take i).map Action.rcpt)) := by
  induction rcpts generalizing t with
  | nil => left; simp [sendEmail.rcptLoop, ht]
  | cons r rs ih =>
    unfold sendEmail.rcptLoop
    by_cases h : w.reply t (.rcpt r) = true
    · simp only [h, if_true]
      rcases ih (t ++ [.rcpt r]) (accepted_snoc w t r ht h) with ⟨h1, h2, h3⟩ | ⟨h1, i, r1, h2, h3, h4⟩
      · left; exact ⟨h1, by simp [h2], h3⟩
      · right
        refine ⟨h1, i + 1, r1, by simpa using h2, by simp [h3], by simpa using h4⟩
    · simp only [h, Bool.false_eq_true, if_false]
      right
      exact ⟨trivial, 0, r, by simp, by simp, by simpa using ht⟩

theorem content_ext (g : Globals) (w : World) (rcpts : List String) (message : String)
    (t : List Action) :
    ∃ s, (sendEmail.content g w rcpts message t).1 = t ++ s ∧
      ∀ a ∈ s, a = .data ∨ a = .write message ∨ a = .closeData ∨ a = .logSent rcpts := by
  unfold sendEmail.content
  split
  · exact ⟨[.data], rfl, by simp⟩
  · simp only
    split
    · exact ⟨[.data, .write message], by simp, by simp⟩
    · split
      · exact ⟨[.data, .write message, .closeData], by simp, by simp⟩
      · split
        · exact ⟨[.data, .write message, .closeData, .logSent rcpts], by simp, by simp⟩
        · split
          · exact ⟨[.data, .write message, .closeData, .logSent rcpts], by simp, by simp⟩
          · exact ⟨[.data, .write message, .closeData], by simp, by simp⟩

theorem rcptLoop_ext (w : World) (rcpts : List String) (t : List Action) :
    ∃ s, (sendEmail.rcptLoop w t rcpts).1 = t ++ s ∧ ∀ a ∈ s, ∃ r ∈ rcpts, a = .rcpt r := by
  induction rcpts generalizing t with
  | nil => exact ⟨[], by simp [sendEmail.rcptLoop], by simp⟩
  | cons r rs ih =>
    unfold sendEmail.rcptLoop
    split
    · obtain ⟨s, h1, h2⟩ := ih (t ++ [.rcpt r])
      refine ⟨.rcpt r :: s, by simp [h1], ?_⟩
      intro a ha
      rcases List.mem_cons.1 ha with h | h
      · exact ⟨r, by simp, h⟩
      · obtain ⟨r1, h3, h4⟩ := h2 a h
        exact ⟨r1, by simp [h3], h4⟩
    · exact ⟨[.rcpt r], rfl, by simp⟩

theorem envelope_ext (g : Globals) (w : World) (rcpts : List String) (email message : String)
    (t : List Action) :
    ∃ s, (sendEmail.envelope g w rcpts email message t).1 = t ++ s ∧
      ∀ a ∈ s, Late g rcpts email message a := by
  have hA : Late g rcpts email message
      (.auth g.config.SMTPUser g.config.SMTPPassword g.config.SMTPHost) := Or.inl rfl
  have hM : Late g rcpts email message (.mail email) := Or.inr (Or.inl rfl)
  unfold sendEmail.envelope
  simp only
  split
  · refine ⟨[.auth g.config.SMTPUser g.config.SMTPPassword g.config.SMTPHost], rfl, ?_⟩
    intro a ha
    simp only [List.mem_singleton] at ha
    rw [ha]; exact hA
  · split
    · refine ⟨[.auth g.config.SMTPUser g.config.SMTPPassword g.config.SMTPHost, .mail email],
        by simp, ?_⟩
      intro a ha
      simp only [List.mem_cons, List.mem_singleton, List.not_mem_nil, or_false] at ha
      rcases ha with h | h <;> rw [h]
      · exact hA
      · exact hM
    · obtain ⟨s1, h1, h2⟩ := rcptLoop_ext w rcpts
        (t ++ [.auth g.config.SMTPUser g.config.SMTPPassword g.config.SMTPHost] ++ [.mail email])
      split
      · refine ⟨.auth g.config.SMTPUser g.config.SMTPPassword g.config.SMTPHost ::
          .mail email :: s1, by rw [h1]; simp, ?_⟩
        intro a ha
        simp only [List.mem_cons] at ha
        rcases ha with h | h | h
        · rw [h]; exact hA
        · rw [h]; exact hM
        · exact Or.inr (Or.inr (Or.inl (h2 a h)))
      · obtain ⟨s2, h3, h4⟩ := content_ext g w rcpts message (sendEmail.rcptLoop w
          (t ++ [.auth g.config.SMTPUser g.config.SMTPPassword g.config.SMTPHost] ++ [.mail email])
          rcpts).1
        refine ⟨.auth g.config.SMTPUser g.config.SMTPPassword g.config.SMTPHost ::
          .mail email :: (s1 ++ s2), by rw [h3, h1]; simp, ?_⟩
        intro a ha
        simp only [List.mem_cons, List.mem_append] at ha
        rcases ha with h | h | h | h
        · rw [h]; exact hA
        · rw [h]; exact hM
        · exact Or.inr (Or.inr (Or.inl (h2 a h)))
        · rcases h4 a h with h | h | h | h <;> simp [Late, h]

theorem beforeRcpt_noRcpt (t : List Action) (h : ∀ a ∈ t, Action.beforeRcpt a = true) :
    ∀ a ∈ t, Action.isRcpt a = false := by
  intro a ha
  have := h a ha
  cases a <;> simp_all [Action.beforeRcpt, Action.isRcpt]

theorem content_accepted (g : Globals) (w : World) (rcpts : List String) (message : String)
    (t : List Action) (ht : Accepted w t) :
    Accepted w (sendEmail.content g w rcpts message t).1 := by
  obtain ⟨s, h1, h2⟩ := content_ext g w rcpts message t
  rw [h1]
  apply accepted_append w t s ht
  intro a ha
  rcases h2 a ha with h | h | h | h <;> simp [h, Action.isRcpt]

theorem envelope_shape (g : Globals) (w : World) (rcpts : List String) (email message : String)
    (t : List Action) (ht : ∀ a ∈ t, Action.beforeRcpt a = true) :
    Accepted w (sendEmail.envelope g w rcpts email message t).1 ∨
      Stopped w rcpts (sendEmail.envelope g w rcpts email message t) [] := by
  have hacc : Accepted w t := accepted_of_noRcpt w t (beforeRcpt_noRcpt t ht)
  unfold sendEmail.envelope
  simp only
  split
  · left; exact accepted_append w t _ hacc (by simp [Action.isRcpt])
  · split
    · left
      rw [List.append_assoc]
      exact accepted_append w t _ hacc (by simp [Action.isRcpt])
    · have ht1 : ∀ a ∈ t ++ [.auth g.config.SMTPUser g.config.SMTPPassword g.config.SMTPHost]
          ++ [.mail email], Action.beforeRcpt a = true := by
        intro a ha
        simp only [List.mem_append, List.mem_singleton] at ha
        rcases ha with (h | h) | h
        · exact ht a h
        · simp [h, Action.beforeRcpt]
        · simp [h, Action.beforeRcpt]
      have hacc1 := accepted_of_noRcpt w _ (beforeRcpt_noRcpt _ ht1)
      rcases rcptLoop_shape w rcpts _ hacc1 with ⟨h1, _, h3⟩ | ⟨h1, i, r, h2, h3, h4⟩
      · simp only [h1, Bool.not_true, Bool.false_eq_true, if_false]
        left; exact content_accepted g w rcpts message _ h3
      · simp only [h1, Bool.not_false, if_true]
        right
        exact ⟨_, i, r, h2, ht1, by rw [h3, List.append_nil], h4, rfl⟩

theorem session_shape (g : Globals) (w : World) (rcpts : List String) (email message : String)
    (t : List Action) (ht : ∀ a ∈ t, Action.beforeRcpt a = true) :
    Accepted w (sendEmail.session g w rcpts email message t).1 ∨
      Stopped w rcpts (sendEmail.session g w rcpts email message t) [] := by
  have hacc : Accepted w t := accepted_of_noRcpt w t (beforeRcpt_noRcpt t ht)
  have hext : ∀ (s : List Action), (∀ a ∈ s, Action.beforeRcpt a = true) →
      ∀ a ∈ t ++ s, Action.beforeRcpt a = true := by
    intro s hs a ha
    rcases List.mem_append.1 ha with h | h
    · exact ht a h
    · exact hs a h
  unfold sendEmail.session
  split
  · split
    · simp only
      split
      · left
        rw [List.append_assoc]
        exact accepted_append w t _ hacc (by simp [Action.isRcpt])
      · rw [List.append_assoc]
        exact envelope_shape g w rcpts email message _
          (hext _ (by simp [Action.beforeRcpt]))
    · exact envelope_shape g w rcpts email message _ (hext _ (by simp [Action.beforeRcpt]))
  · exact envelope_shape g w rcpts email message t ht

theorem dial_beforeRcpt (g : Globals) : Action.beforeRcpt (sendEmail.dial g) = true := by
  unfold sendEmail.dial
  simp only
  split <;> rfl

theorem transport_shape (g : Globals) (w : World) (rcpts : List String) (email message : String) :
    Accepted w (sendEmail.transport g w rcpts email message).1 ∨
      Stopped w rcpts (sendEmail.transport g w rcpts email message) [.close] := by
  have hb : ∀ a ∈ [sendEmail.dial g, Action.newClient g.config.SMTPHost],
      Action.beforeRcpt a = true := by
    intro a ha
    simp only [List.mem_cons, List.mem_singleton, List.not_mem_nil, or_false] at ha
    rcases ha with h | h <;> rw [h]
    · exact dial_beforeRcpt g
    · rfl
  have hn := beforeRcpt_noRcpt _ hb
  unfold sendEmail.transport
  simp only
  split
  · left; exact accepted_of_noRcpt w _ (fun a ha => hn a (by simp at ha; simp [ha]))
  · split
    · left; exact accepted_of_noRcpt w _ hn
    · rcases session_shape g w rcpts email message _ hb with h | ⟨t0, i, r, h1, h2, h3, h4, h5⟩
      · left; exact accepted_append w _ _ h (by simp [Action.isRcpt])
      · right
        exact ⟨t0, i, r, h1, h2, by simp only [h3, List.append_nil], h4, h5⟩

theorem sendEmail_shape (g : Globals) (w : World) (rcpts : List String) (message : String) :
    Accepted w (sendEmail g w rcpts message).1 ∨
      Stopped w rcpts (sendEmail g w rcpts message) [.close] := by
  unfold sendEmail
  split
  · left; exact accepted_of_noRcpt w _ (by simp)
  · split
    · left; exact accepted_of_noRcpt w _ (by simp)
    · exact transport_shape g w rcpts _ _

/-! ## Claims -/

/-- C1: on a message with the headers `To: a@x, b@x` and `Cc: c@x`,
`extractRecipientsFromHeaders` returns the two raw header values
`a@x, b@x` and `c@x`, not the three addresses: the value of the `To` header is
never split into its addresses. -/
theorem extractRecipients_raw_values :
    extractRecipientsFromHeaders (exWorld [("To", "a@x, b@x"), ("Cc", "c@x")] "hello" id)
        "To: a@x, b@x\r\nCc: c@x\r\n\r\nhello" = some ["a@x, b@x", "c@x"] ∧
      extractRecipientsFromHeaders (exWorld [("To", "a@x, b@x"), ("Cc", "c@x")] "hello" id)
        "To: a@x, b@x\r\nCc: c@x\r\n\r\nhello" ≠ some ["a@x", "b@x", "c@x"] := by
  decide

theorem sendEmail_eq (g : Globals) (w : World) (rcpts : List String) (message : String)
    (msg : Message) (name email : String) (hm : ReadMessage w message = some msg)
    (hr : sendEmail.resolve g w msg = .ok (name, email)) :
    sendEmail g w rcpts message = sendEmail.transport g w rcpts email
      (render (headerLines (formatEmailAddress name email) (w.range msg.Header)) msg.Body) := by
  unfold sendEmail
  rw [hm]
  simp only [hr, rebuild_eq]

theorem readMessage_eq (w : World) (message : String) (lines : List (String × String))
    (body : String) (h : w.readHeader message = some (lines, body)) :
    ReadMessage w message = some { Header := ReadMIMEHeader lines, Body := body } := by
  unfold ReadMessage
  rw [h]

theorem range_nodup (w : World) (hw : w.RangeOk) (lines : List (String × String)) :
    (Header.keys (w.range (ReadMIMEHeader lines))).Nodup :=
  (keys_perm (hw _)).nodup_iff.2 (ReadMIMEHeader_nodup lines)

theorem range_fromCanon (w : World) (hw : w.RangeOk) (lines : List (String × String)) :
    Header.FromCanon (w.range (ReadMIMEHeader lines)) :=
  fromCanon_perm (hw _) (ReadMIMEHeader_fromCanon lines)

/-- Every call of the transport stage is one of: the dial, the client
creation, the STARTTLS query, the STARTTLS upgrade, a late call, the close. -/
theorem transport_issued (g : Globals) (w : World) (rcpts : List String) (email message : String)
    (a : Action) (ha : a ∈ (sendEmail.transport g w rcpts email message).1) :
    a = sendEmail.dial g ∨ a = .newClient g.config.SMTPHost ∨ a = .extension "STARTTLS" ∨
      a = .startTLS g.config.SMTPHost ∨ Late g rcpts email message a ∨ a = .close := by
  unfold sendEmail.transport at ha
  simp only at ha
  split at ha
  · simp only [List.mem_singleton] at ha; exact Or.inl ha
  · split at ha
    · simp only [List.mem_cons, List.mem_singleton, List.not_mem_nil, or_false] at ha
      rcases ha with h | h
      · exact Or.inl h
      · exact Or.inr (Or.inl h)
    · simp only [List.mem_append, List.mem_singleton] at ha
      rcases ha with h | h
      · unfold sendEmail.session at h
        have key : ∀ (t : List Action), (∀ b ∈ t, b = sendEmail.dial g ∨
            b = .newClient g.config.SMTPHost ∨ b = .extension "STARTTLS" ∨
            b = .startTLS g.config.SMTPHost) →
            a ∈ (sendEmail.envelope g w rcpts email message t).1 →
            a = sendEmail.dial g ∨ a = .newClient g.config.SMTPHost ∨
              a = .extension "STARTTLS" ∨ a = .startTLS g.config.SMTPHost ∨
              Late g rcpts email message a ∨ a = .close := by
          intro t ht hmem
          obtain ⟨s, h1, h2⟩ := envelope_ext g w rcpts email message t
          rw [h1] at hmem
          rcases List.mem_append.1 hmem with h3 | h3
          · rcases ht a h3 with h4 | h4 | h4 | h4
            · exact Or.inl h4
            · exact Or.inr (Or.inl h4)
            · exact Or.inr (Or.inr (Or.inl h4))
            · exact Or.inr (Or.inr (Or.inr (Or.inl h4)))
          · exact Or.inr (Or.inr (Or.inr (Or.inr (Or.inl (h2 a h3)))))
        split at h
        · split at h
          · simp only at h
            split at h
            · simp only [List.mem_append, List.mem_cons, List.mem_singleton, List.not_mem_nil,
                or_false] at h
              rcases h with ((h | h) | h) | h
              · exact Or.inl h
              · exact Or.inr (Or.inl h)
              · exact Or.inr (Or.inr (Or.inl h))
              · exact Or.inr (Or.inr (Or.inr (Or.inl h)))
            · refine key _ ?_ h
              intro b hb
              simp only [List.mem_append, List.mem_cons, List.mem_singleton, List.not_mem_nil,
                or_false] at hb
              rcases hb with ((h | h) | h) | h
              · exact Or.inl h
              · exact Or.inr (Or.inl h)
              · exact Or.inr (Or.inr (Or.inl h))
              · exact Or.inr (Or.inr (Or.inr h))
          · refine key _ ?_ h
            intro b hb
            simp only [List.mem_append, List.mem_cons, List.mem_singleton, List.not_mem_nil,
              or_false] at hb
            rcases hb with (h | h) | h
            · exact Or.inl h
            · exact Or.inr (Or.inl h)
            · exact Or.inr (Or.inr (Or.inl h))
        · refine key _ ?_ h
          intro b hb
          simp only [List.mem_cons, List.mem_singleton, List.not_mem_nil, or_false] at hb
          rcases hb with h | h
          · exact Or.inl h
          · exact Or.inr (Or.inl h)
      · exact Or.inr (Or.inr (Or.inr (Or.inr (Or.inr h))))

theorem dial_cases (g : Globals) :
    sendEmail.dial g = .tlsDial (JoinHostPort g.config.SMTPHost g.config.SMTPPort) ∨
      sendEmail.dial g = .netDial (JoinHostPort g.config.SMTPHost g.config.SMTPPort) := by
  unfold sendEmail.dial
  simp only
  split
  · exact Or.inl rfl
  · exact Or.inr rfl

theorem transport_write (g : Globals) (w : World) (rcpts : List String) (email message m : String)
    (ha : Action.write m ∈ (sendEmail.transport g w rcpts email message).1) : m = message := by
  rcases transport_issued g w rcpts email message _ ha with h | h | h | h | h | h
  · rcases dial_cases g with h1 | h1 <;> rw [h1] at h <;> cases h
  · cases h
  · cases h
  · cases h
  · rcases h with h | h | ⟨r, _, h⟩ | h | h | h | h <;> cases h
    rfl
  · cases h

theorem transport_mail (g : Globals) (w : World) (rcpts : List String) (email message x : String)
    (ha : Action.mail x ∈ (sendEmail.transport g w rcpts email message).1) : x = email := by
  rcases transport_issued g w rcpts email message _ ha with h | h | h | h | h | h
  · rcases dial_cases g with h1 | h1 <;> rw [h1] at h <;> cases h
  · cases h
  · cases h
  · cases h
  · rcases h with h | h | ⟨r, _, h⟩ | h | h | h | h <;> cases h
    rfl
  · cases h

theorem rcptLoop_accepting (w : World) (hall : ∀ t a, w.reply t a = true) (rcpts : List String)
    (t : List Action) : sendEmail.rcptLoop w t rcpts = (t ++ rcpts.map Action.rcpt, true) := by
  induction rcpts generalizing t with
  | nil => simp [sendEmail.rcptLoop]
  | cons r rs ih =>
    unfold sendEmail.rcptLoop
    rw [if_pos (hall _ _), ih]
    simp

/-- When the server accepts every command, the exchange reaches the end: MAIL
carries the resolved address, the rewritten message is written, and
`sendEmail` returns no error. -/
theorem transport_accepting (g : Globals) (w : World) (hall : ∀ t a, w.reply t a = true)
    (rcpts : List String) (email message : String) :
    Action.mail email ∈ (sendEmail.transport g w rcpts email message).1 ∧
      Action.write message ∈ (sendEmail.transport g w rcpts email message).1 ∧
      (sendEmail.transport g w rcpts email message).2 = .ok () := by
  have hc : ∀ t, Action.write message ∈ (sendEmail.content g w rcpts message t).1 ∧
      (sendEmail.content g w rcpts message t).2 = .ok () ∧
      ∀ a ∈ t, a ∈ (sendEmail.content g w rcpts message t).1 := by
    intro t
    unfold sendEmail.content
    simp only [hall, Bool.not_true, Bool.false_eq_true, if_false]
    split
    · exact ⟨by simp, rfl, fun a ha => by simp [ha]⟩
    · split <;> exact ⟨by simp, rfl, fun a ha => by simp [ha]⟩
  have he : ∀ t, Action.mail email ∈ (sendEmail.envelope g w rcpts email message t).1 ∧
      Action.write message ∈ (sendEmail.envelope g w rcpts email message t).1 ∧
      (sendEmail.envelope g w rcpts email message t).2 = .ok () := by
    intro t
    unfold sendEmail.envelope
    simp only [hall, Bool.not_true, Bool.false_eq_true, if_false, rcptLoop_accepting w hall]
    obtain ⟨h1, h2, h3⟩ := hc (t ++ [Action.auth g.config.SMTPUser g.config.SMTPPassword
      g.config.SMTPHost] ++ [Action.mail email] ++ List.map Action.rcpt rcpts)
    exact ⟨h3 _ (by simp), h1, h2⟩
  unfold sendEmail.transport
  simp only [hall, Bool.not_true, Bool.false_eq_true, if_false]
  unfold sendEmail.session
  simp only [hall, Bool.not_true, Bool.false_eq_true, if_false, if_true]
  split
  · obtain ⟨h1, h2, h3⟩ := he ([sendEmail.dial g, Action.newClient g.config.SMTPHost] ++
      [Action.extension "STARTTLS"] ++ [Action.startTLS g.config.SMTPHost])
    exact ⟨List.mem_append_left _ h1, List.mem_append_left _ h2, h3⟩
  · obtain ⟨h1, h2, h3⟩ := he [sendEmail.dial g, Action.newClient g.config.SMTPHost]
    exact ⟨List.mem_append_left _ h1, List.mem_append_left _ h2, h3⟩

/-- C5: for a message that parses (`readHeader` gives its header lines and
body) and whose sender resolves, `sendEmail` hands to the transport, and
writes on the DATA stream, exactly the header lines `Name: value` each ended
by CRLF, one empty CRLF line, and the body unchanged; when the server accepts
every command that message is indeed written. -/
theorem sendEmail_wire_format (g : Globals) (w : World) (rcpts : List String) (message : String)
    (lines : List (String × String)) (body name email : String)
    (hm : w.readHeader message = some (lines, body))
    (hr : sendEmail.resolve g w { Header := ReadMIMEHeader lines, Body := body }
      = .ok (name, email)) :
    sendEmail g w rcpts message = sendEmail.transport g w rcpts email
        (String.join ((headerLines (formatEmailAddress name email)
          (w.range (ReadMIMEHeader lines))).map (fun l => l.1 ++ ": " ++ l.2 ++ "\r\n"))
          ++ "\r\n" ++ body) ∧
      (∀ m, Action.write m ∈ (sendEmail g w rcpts message).1 →
        m = String.join ((headerLines (formatEmailAddress name email)
          (w.range (ReadMIMEHeader lines))).map (fun l => l.1 ++ ": " ++ l.2 ++ "\r\n"))
          ++ "\r\n" ++ body) ∧
      ((∀ t a, w.reply t a = true) →
        Action.write (String.join ((headerLines (formatEmailAddress name email)
          (w.range (ReadMIMEHeader lines))).map (fun l => l.1 ++ ": " ++ l.2 ++ "\r\n"))
          ++ "\r\n" ++ body) ∈ (sendEmail g w rcpts message).1) := by
  have e := sendEmail_eq g w rcpts message { Header := ReadMIMEHeader lines, Body := body } name email
      (readMessage_eq w message lines body hm) hr
  have e2 : sendEmail g w rcpts message = sendEmail.transport g w rcpts email
      (String.join ((headerLines (formatEmailAddress name email)
        (w.range (ReadMIMEHeader lines))).map (fun l => l.1 ++ ": " ++ l.2 ++ "\r\n"))
        ++ "\r\n" ++ body) := e
  refine ⟨e2, ?_, ?_⟩
  · intro m hmem
    rw [e2] at hmem
    exact transport_write g w rcpts email _ m hmem
  · intro hall
    rw [e2]
    exact (transport_accepting g w hall rcpts email _).2.1

/-- C5, at a concrete input: a message with two headers and body `hello`. -/
theorem sendEmail_wire_format_witness :
    Action.write "Subject: hi\r\nFrom: f@x\r\n\r\nhello" ∈
      (sendEmail exGlobals (exWorld [("subject", "hi"), ("From", "f@x")] "hello" id) ["r@x"]
        "subject: hi\r\nFrom: f@x\r\n\r\nhello").1 :=
  (sendEmail_wire_format exGlobals (exWorld [("subject", "hi"), ("From", "f@x")] "hello" id)
    ["r@x"] "subject: hi\r\nFrom: f@x\r\n\r\nhello" [("subject", "hi"), ("From", "f@x")] "hello"
    "" "f@x" (by decide!) (by decide!)).2.2 (fun _ _ => rfl)

theorem noFrom_of_keys (entries : Header) (hc : entries.FromCanon)
    (hk : "From" ∉ entries.keys) : ∀ e ∈ entries, EqualFold e.1 "From" = false := by
  intro e he
  by_contra h
  simp only [Bool.not_eq_false] at h
  apply hk
  rw [← hc e he h]
  exact List.mem_map_of_mem _ he

/-- C4: for a message that parses and whose sender resolves to `(name, email)`,
whatever the number of `From` headers in the input and the values of `-f` and
`-F`, the header block of the rewritten message has exactly one `From` line,
its value is `formatEmailAddress name email`, and when the input has no `From`
header that line is the last one, after the lines of the input. -/
theorem rewritten_one_from (g : Globals) (w : World) (rcpts : List String) (message : String)
    (lines : List (String × String)) (body name email : String) (hw : w.RangeOk)
    (hm : w.readHeader message = some (lines, body))
    (hr : sendEmail.resolve g w { Header := ReadMIMEHeader lines, Body := body }
      = .ok (name, email)) :
    sendEmail g w rcpts message = sendEmail.transport g w rcpts email
        (render (headerLines (formatEmailAddress name email) (w.range (ReadMIMEHeader lines)))
          body) ∧
      (headerLines (formatEmailAddress name email) (w.range (ReadMIMEHeader lines))).filter
          (fun l => EqualFold l.1 "From") = [("From", formatEmailAddress name email)] ∧
      ("From" ∉ (ReadMIMEHeader lines).keys →
        ∃ others, headerLines (formatEmailAddress name email) (w.range (ReadMIMEHeader lines))
            = others ++ [("From", formatEmailAddress name email)] ∧
          others.Perm (canonicalLines lines)) := by
  refine ⟨sendEmail_eq g w rcpts message { Header := ReadMIMEHeader lines, Body := body } name email
      (readMessage_eq w message lines body hm) hr,
    headerLines_from _ _ (range_nodup w hw lines) (range_fromCanon w hw lines), ?_⟩
  intro hk
  have hk2 : "From" ∉ Header.keys (w.range (ReadMIMEHeader lines)) :=
    fun h => hk ((keys_perm (hw _)).subset h)
  refine ⟨Header.lines (w.range (ReadMIMEHeader lines)),
    headerLines_noFrom _ _ (noFrom_of_keys _ (range_fromCanon w hw lines) hk2), ?_⟩
  exact (lines_perm (hw _)).trans (ReadMIMEHeader_lines lines)

/-- C4, at a concrete input: two `From` headers in the input, `-f` and `-F`
both given. -/
theorem rewritten_one_from_witness :
    (headerLines (formatEmailAddress "N" "s@x")
        ((exWorld [("From", "a@x"), ("To", "r@x"), ("from", "b@x")] "hello" id).range
          (ReadMIMEHeader [("From", "a@x"), ("To", "r@x"), ("from", "b@x")]))).filter
          (fun l => EqualFold l.1 "From") = [("From", formatEmailAddress "N" "s@x")] :=
  (rewritten_one_from exGlobalsOverride
    (exWorld [("From", "a@x"), ("To", "r@x"), ("from", "b@x")] "hello" id) ["r@x"]
    "From: a@x\r\nTo: r@x\r\nfrom: b@x\r\n\r\nhello"
    [("From", "a@x"), ("To", "r@x"), ("from", "b@x")] "hello" "N" "s@x"
    (fun _ => List.Perm.refl _) (by decide!) (by decide!)).2.1

/-- C2 as stated fails: with the input headers `Received: a`, `X-A: b`,
`Received: c` the header map has the two keys `Received` and `X-A`, and in
both of its iteration orders the rewritten message has the two `Received`
lines next to each other, so its non-From lines are not the input sequence
`Received: a`, `X-A: b`, `Received: c`. -/
theorem header_order_counterexample :
    nonFrom (canonicalLines [("Received", "a"), ("X-A", "b"), ("Received", "c")])
        = [("Received", "a"), ("X-A", "b"), ("Received", "c")] ∧
      ReadMIMEHeader [("Received", "a"), ("X-A", "b"), ("Received", "c")]
        = [("Received", ["a", "c"]), ("X-A", ["b"])] ∧
      Action.write "Received: a\r\nReceived: c\r\nX-A: b\r\nFrom: f@x\r\n\r\nhello" ∈
        (sendEmail exGlobalsFrom
          (exWorld [("Received", "a"), ("X-A", "b"), ("Received", "c")] "hello" id) ["r@x"]
          "Received: a\r\nX-A: b\r\nReceived: c\r\n\r\nhello").1 ∧
      nonFrom (headerLines "f@x" [("Received", ["a", "c"]), ("X-A", ["b"])])
        = [("Received", "a"), ("Received", "c"), ("X-A", "b")] ∧
      Action.write "X-A: b\r\nReceived: a\r\nReceived: c\r\nFrom: f@x\r\n\r\nhello" ∈
        (sendEmail exGlobalsFrom
          (exWorld [("Received", "a"), ("X-A", "b"), ("Received", "c")] "hello" List.reverse)
          ["r@x"] "Received: a\r\nX-A: b\r\nReceived: c\r\n\r\nhello").1 ∧
      nonFrom (headerLines "f@x" [("X-A", ["b"]), ("Received", ["a", "c"])])
        = [("X-A", "b"), ("Received", "a"), ("Received", "c")] := by
  decide!

/-- C2, amended: for a message that parses and whose sender resolves, the
non-From header lines of the rewritten message are the non-From header lines
of the input (names in canonical form), each exactly once and with its value
unchanged, and the lines of one name keep their relative order; the order
between lines of different names is the iteration order of the header map. -/
theorem nonFrom_rearranged (g : Globals) (w : World) (rcpts : List String) (message : String)
    (lines : List (String × String)) (body name email : String) (hw : w.RangeOk)
    (hm : w.readHeader message = some (lines, body))
    (hr : sendEmail.resolve g w { Header := ReadMIMEHeader lines, Body := body }
      = .ok (name, email)) :
    sendEmail g w rcpts message = sendEmail.transport g w rcpts email
        (render (headerLines (formatEmailAddress name email) (w.range (ReadMIMEHeader lines)))
          body) ∧
      (nonFrom (headerLines (formatEmailAddress name email)
        (w.range (ReadMIMEHeader lines)))).Perm (nonFrom (canonicalLines lines)) ∧
      ∀ k, (nonFrom (headerLines (formatEmailAddress name email)
          (w.range (ReadMIMEHeader lines)))).filter (fun l => l.1 = k)
        = (nonFrom (canonicalLines lines)).filter (fun l => l.1 = k) := by
  refine ⟨sendEmail_eq g w rcpts message { Header := ReadMIMEHeader lines, Body := body } name email
      (readMessage_eq w message lines body hm) hr,
    ?_, ?_⟩
  · rw [nonFrom_headerLines]
    exact ((lines_perm (hw _)).trans (ReadMIMEHeader_lines lines)).filter _
  · intro k
    rw [nonFrom_headerLines]
    unfold nonFrom
    rw [List.filter_comm, range_filter lines _ (hw _) k, List.filter_comm]

/-- C2 amended, at a concrete input: `Received`, `X-A`, `Received`. -/
theorem nonFrom_rearranged_witness :
    (nonFrom (headerLines (formatEmailAddress "" "f@x")
        ((exWorld [("Received", "a"), ("X-A", "b"), ("Received", "c")] "hello" id).range
          (ReadMIMEHeader [("Received", "a"), ("X-A", "b"), ("Received", "c")])))).Perm
        (nonFrom (canonicalLines [("Received", "a"), ("X-A", "b"), ("Received", "c")])) :=
  (nonFrom_rearranged exGlobalsFrom
    (exWorld [("Received", "a"), ("X-A", "b"), ("Received", "c")] "hello" id) ["r@x"]
    "Received: a\r\nX-A: b\r\nReceived: c\r\n\r\nhello"
    [("Received", "a"), ("X-A", "b"), ("Received", "c")] "hello" "" "f@x"
    (fun _ => List.Perm.refl _) (by decide!) (by decide!)).2.1

/-- C3 as stated fails: with the input headers `Received: a`, `From: o@x`,
`Received: b` the original `From` header has one line before it and one after
it; the header map has the two keys `Received` and `From`, and in both of its
iteration orders the `From` line of the rewritten message is either after both
`Received` lines or before both. -/
theorem from_position_counterexample :
    (canonicalLines [("Received", "a"), ("From", "o@x"), ("Received", "b")]).takeWhile
        (fun l => !EqualFold l.1 "From") = [("Received", "a")] ∧
      ReadMIMEHeader [("Received", "a"), ("From", "o@x"), ("Received", "b")]
        = [("Received", ["a", "b"]), ("From", ["o@x"])] ∧
      Action.write "Received: a\r\nReceived: b\r\nFrom: o@x\r\n\r\nhello" ∈
        (sendEmail exGlobals
          (exWorld [("Received", "a"), ("From", "o@x"), ("Received", "b")] "hello" id) ["r@x"]
          "Received: a\r\nFrom: o@x\r\nReceived: b\r\n\r\nhello").1 ∧
      (headerLines "o@x" [("Received", ["a", "b"]), ("From", ["o@x"])]).takeWhile
        (fun l => !EqualFold l.1 "From") = [("Received", "a"), ("Received", "b")] ∧
      Action.write "From: o@x\r\nReceived: a\r\nReceived: b\r\n\r\nhello" ∈
        (sendEmail exGlobals
          (exWorld [("Received", "a"), ("From", "o@x"), ("Received", "b")] "hello" List.reverse)
          ["r@x"] "Received: a\r\nFrom: o@x\r\nReceived: b\r\n\r\nhello").1 ∧
      (headerLines "o@x" [("From", ["o@x"]), ("Received", ["a", "b"])]).takeWhile
        (fun l => !EqualFold l.1 "From") = [] := by
  decide!

/-- C3, amended: for a message that parses, has a `From` header and whose
sender resolves, the rewritten message has its `From` line where the traversal
of the header map meets the key `From`: before it come the lines of the
entries visited earlier, after it the lines of the entries visited later, none
of them a `From` line, and together they are the non-From lines of the input.
The position is that of the key in the traversal, not that of the original
header in the input. -/
theorem from_line_position (g : Globals) (w : World) (rcpts : List String) (message : String)
    (lines : List (String × String)) (body name email : String) (hw : w.RangeOk)
    (hm : w.readHeader message = some (lines, body))
    (hr : sendEmail.resolve g w { Header := ReadMIMEHeader lines, Body := body }
      = .ok (name, email))
    (hf : "From" ∈ (ReadMIMEHeader lines).keys) :
    ∃ (before : Header) (vs : List String) (after : Header),
      w.range (ReadMIMEHeader lines) = before ++ ("From", vs) :: after ∧
      sendEmail g w rcpts message = sendEmail.transport g w rcpts email
        (render (Header.lines before ++ ("From", formatEmailAddress name email) :: Header.lines after) body) ∧
      (∀ l ∈ Header.lines before ++ Header.lines after, EqualFold l.1 "From" = false) ∧
      (Header.lines before ++ Header.lines after).Perm (nonFrom (canonicalLines lines)) := by
  have hf2 : "From" ∈ Header.keys (w.range (ReadMIMEHeader lines)) :=
    (keys_perm (hw _)).symm.subset hf
  obtain ⟨e, he, hk⟩ := List.mem_map.1 hf2
  obtain ⟨before, after, hsplit⟩ := List.append_of_mem he
  obtain ⟨k, vs⟩ := e
  simp only at hk
  subst hk
  have hn := range_nodup w hw lines
  have hc := range_fromCanon w hw lines
  rw [hsplit] at hn hc
  obtain ⟨h1, h2, h3⟩ := headerLines_split (formatEmailAddress name email) before after "From" vs
    equalFold_From hn hc
  have hall : ∀ l ∈ Header.lines before ++ Header.lines after, EqualFold l.1 "From" = false := by
    intro l hl
    rcases List.mem_append.1 hl with h | h
    · exact h2 l h
    · exact h3 l h
  have e1 := sendEmail_eq g w rcpts message { Header := ReadMIMEHeader lines, Body := body }
    name email (readMessage_eq w message lines body hm) hr
  simp only [hsplit, h1] at e1
  refine ⟨before, vs, after, hsplit, e1, hall, ?_⟩
  have hp : (nonFrom (headerLines (formatEmailAddress name email)
      (w.range (ReadMIMEHeader lines)))).Perm (nonFrom (canonicalLines lines)) := by
    rw [nonFrom_headerLines]
    exact ((lines_perm (hw _)).trans (ReadMIMEHeader_lines lines)).filter _
  rw [hsplit, h1] at hp
  have hnf : nonFrom (Header.lines before ++ ("From", formatEmailAddress name email) :: Header.lines after)
      = Header.lines before ++ Header.lines after := by
    unfold nonFrom
    rw [List.filter_append, List.filter_cons]
    simp only [equalFold_From, Bool.not_true, Bool.false_eq_true, if_false]
    rw [List.filter_eq_self.2 (by intro l hl; simp [h2 l hl]),
      List.filter_eq_self.2 (by intro l hl; simp [h3 l hl])]
  rw [hnf] at hp
  exact hp

/-- C3 amended, at a concrete input: `Received`, `From`, `Received`. -/
theorem from_line_position_witness :
    ∃ (before : Header) (vs : List String) (after : Header),
      (exWorld [("Received", "a"), ("From", "o@x"), ("Received", "b")] "hello" id).range
          (ReadMIMEHeader [("Received", "a"), ("From", "o@x"), ("Received", "b")])
        = before ++ ("From", vs) :: after ∧
      sendEmail exGlobals
          (exWorld [("Received", "a"), ("From", "o@x"), ("Received", "b")] "hello" id) ["r@x"]
          "Received: a\r\nFrom: o@x\r\nReceived: b\r\n\r\nhello"
        = sendEmail.transport exGlobals
          (exWorld [("Received", "a"), ("From", "o@x"), ("Received", "b")] "hello" id) ["r@x"]
          "o@x" (render (Header.lines before ++ ("From", formatEmailAddress "" "o@x") :: Header.lines after)
            "hello") ∧
      (∀ l ∈ Header.lines before ++ Header.lines after, EqualFold l.1 "From" = false) ∧
      (Header.lines before ++ Header.lines after).Perm
        (nonFrom (canonicalLines [("Received", "a"), ("From", "o@x"), ("Received", "b")])) :=
  from_line_position exGlobals
    (exWorld [("Received", "a"), ("From", "o@x"), ("Received", "b")] "hello" id) ["r@x"]
    "Received: a\r\nFrom: o@x\r\nReceived: b\r\n\r\nhello"
    [("Received", "a"), ("From", "o@x"), ("Received", "b")] "hello" "" "o@x"
    (fun _ => List.Perm.refl _) (by decide!) (by decide!) (by decide!)

/-- C6: for a message with a non-empty `From` header that parses as an
address, no configured send-from, and both `-f A` and `-F N` given, the
rewritten message has the single `From` line `N <A>`, every MAIL command
carries exactly `A`, and MAIL is issued when the server accepts every command. -/
theorem override_both (g : Globals) (w : World) (rcpts : List String) (message : String)
    (lines : List (String × String)) (body name0 email0 : String) (hw : w.RangeOk)
    (hm : w.readHeader message = some (lines, body))
    (hc : g.config.SendFrom = "")
    (hne : Header.Get (ReadMIMEHeader lines) "From" ≠ "")
    (hp : w.parseAddress (Header.Get (ReadMIMEHeader lines) "From") = some (name0, email0))
    (hs : g.sender ≠ "") (hn : g.senderFullName ≠ "") :
    sendEmail g w rcpts message = sendEmail.transport g w rcpts g.sender
        (render (headerLines (g.senderFullName ++ " <" ++ g.sender ++ ">")
          (w.range (ReadMIMEHeader lines))) body) ∧
      (headerLines (g.senderFullName ++ " <" ++ g.sender ++ ">")
          (w.range (ReadMIMEHeader lines))).filter (fun l => EqualFold l.1 "From")
        = [("From", g.senderFullName ++ " <" ++ g.sender ++ ">")] ∧
      (∀ x, Action.mail x ∈ (sendEmail g w rcpts message).1 → x = g.sender) ∧
      ((∀ t a, w.reply t a = true) → Action.mail g.sender ∈ (sendEmail g w rcpts message).1) := by
  have hr : sendEmail.resolve g w { Header := ReadMIMEHeader lines, Body := body }
      = .ok (g.senderFullName, g.sender) := by
    unfold sendEmail.resolve parseEmailAddress
    simp only [hc, if_true, hne, if_false, hp, ne_eq, hs, not_false_eq_true, hn]
  have hfmt : formatEmailAddress g.senderFullName g.sender
      = g.senderFullName ++ " <" ++ g.sender ++ ">" := by
    unfold formatEmailAddress
    rw [if_neg hn]
  have e := sendEmail_eq g w rcpts message { Header := ReadMIMEHeader lines, Body := body }
    g.senderFullName g.sender (readMessage_eq w message lines body hm) hr
  rw [hfmt] at e
  simp only at e
  refine ⟨e, headerLines_from _ _ (range_nodup w hw lines) (range_fromCanon w hw lines), ?_, ?_⟩
  · intro x hx
    rw [e] at hx
    exact transport_mail g w rcpts _ _ x hx
  · intro hall
    rw [e]
    exact (transport_accepting g w hall rcpts _ _).1

/-- C6, at a concrete input: `From: Old <old@x>`, `-f s@x`, `-F N`. -/
theorem override_both_witness :
    Action.mail exGlobalsOverride.sender ∈
      (sendEmail exGlobalsOverride (exWorld [("From", "Old <old@x>")] "hello" id) ["r@x"]
        "From: Old <old@x>\r\n\r\nhello").1 :=
  (override_both exGlobalsOverride (exWorld [("From", "Old <old@x>")] "hello" id) ["r@x"]
    "From: Old <old@x>\r\n\r\nhello" [("From", "Old <old@x>")] "hello" "Old" "old@x"
    (fun _ => List.Perm.refl _) (by decide!) (by decide!) (by decide!) (by decide!) (by decide!)
    (by decide!)).2.2.2 (fun _ _ => rfl)

theorem content_errors (g : Globals) (w : World) (rcpts : List String) (message : String)
    (t : List Action) :
    (sendEmail.content g w rcpts message t).2 = .ok () ∨
      (sendEmail.content g w rcpts message t).2 = .error .dataWriter ∨
      (sendEmail.content g w rcpts message t).2 = .error .writeMessage ∨
      (sendEmail.content g w rcpts message t).2 = .error .closeWriter := by
  unfold sendEmail.content
  split
  · simp
  · simp only
    split
    · simp
    · split
      · simp
      · split
        · simp
        · split <;> simp

/-- The errors of the stages that follow the optional upgrade. -/
theorem envelope_errors (g : Globals) (w : World) (rcpts : List String) (email message : String)
    (t : List Action) :
    (sendEmail.envelope g w rcpts email message t).2 = .ok () ∨
      (sendEmail.envelope g w rcpts email message t).2 = .error .auth ∨
      (sendEmail.envelope g w rcpts email message t).2 = .error .sender ∨
      (sendEmail.envelope g w rcpts email message t).2 = .error .recipient ∨
      (sendEmail.envelope g w rcpts email message t).2 = .error .dataWriter ∨
      (sendEmail.envelope g w rcpts email message t).2 = .error .writeMessage ∨
      (sendEmail.envelope g w rcpts email message t).2 = .error .closeWriter := by
  unfold sendEmail.envelope
  simp only
  split
  · simp
  · split
    · simp
    · split
      · simp
      · rcases content_errors g w rcpts message (sendEmail.rcptLoop w
          (t ++ [.auth g.config.SMTPUser g.config.SMTPPassword g.config.SMTPHost] ++ [.mail email])
          rcpts).1 with h | h | h | h <;> rw [h] <;> simp

theorem envelope_ne (g : Globals) (w : World) (rcpts : List String) (email message : String)
    (t : List Action) :
    (sendEmail.envelope g w rcpts email message t).2 ≠ .error .noFrom ∧
      (sendEmail.envelope g w rcpts email message t).2 ≠ .error .startTLS := by
  rcases envelope_errors g w rcpts email message t with h | h | h | h | h | h | h <;>
    rw [h] <;> exact ⟨by simp, by simp⟩

/-- The transport stage never reports a missing sender. -/
theorem transport_ne_noFrom (g : Globals) (w : World) (rcpts : List String)
    (email message : String) :
    (sendEmail.transport g w rcpts email message).2 ≠ .error .noFrom := by
  unfold sendEmail.transport
  simp only
  split
  · simp
  · split
    · simp
    · simp only
      unfold sendEmail.session
      split
      · split
        · simp only
          split
          · simp
          · exact (envelope_ne g w rcpts email message _).1
        · exact (envelope_ne g w rcpts email message _).1
      · exact (envelope_ne g w rcpts email message _).1

/-- C7 as stated fails: with `-f s@x` on the command line, no configured
send-from and no `From` header in the message, `sendEmail` returns the
missing-sender error, before any network call. -/
theorem sender_override_counterexample :
    exGlobalsSender.sender = "s@x" ∧ exGlobalsSender.config.SendFrom = "" ∧
      Header.Get (ReadMIMEHeader [("To", "r@x")]) "From" = "" ∧
      sendEmail exGlobalsSender (exWorld [("To", "r@x")] "hello" id) ["r@x"]
        "To: r@x\r\n\r\nhello" = ([], .error .noFrom) := by
  decide!

/-- C7, amended: `sendEmail` fails with the missing-sender error if and only
if the message parses and both the configured send-from address and the value
of the message's `From` header are empty; the sender override `-f` is not
consulted for this check.  No network call is made in that case. -/
theorem noFrom_iff (g : Globals) (w : World) (rcpts : List String) (message : String) :
    ((sendEmail g w rcpts message).2 = .error .noFrom ↔
        ∃ msg, ReadMessage w message = some msg ∧ g.config.SendFrom = "" ∧
          Header.Get msg.Header "From" = "") ∧
      ((sendEmail g w rcpts message).2 = .error .noFrom → (sendEmail g w rcpts message).1 = []) := by
  unfold sendEmail
  cases hm : ReadMessage w message with
  | none => simp
  | some msg =>
    simp only [Option.some.injEq, exists_eq_left']
    cases hr : sendEmail.resolve g w msg with
    | error e =>
      simp only [and_true, implies_true]
      unfold sendEmail.resolve at hr
      simp only at hr
      by_cases h1 : g.config.SendFrom = ""
      · simp only [h1, if_true] at hr
        by_cases h2 : Header.Get msg.Header "From" = ""
        · simp only [h2, if_true, Except.error.injEq] at hr
          simp [← hr, h1, h2]
        · simp only [h2, if_false] at hr
          split at hr
          · simp only [Except.error.injEq] at hr
            simp [← hr, h2]
          · simp at hr
      · simp only [h1, if_false] at hr
        split at hr
        · simp only [Except.error.injEq] at hr
          simp [← hr, h1]
        · simp at hr
    | ok p =>
      obtain ⟨name, email⟩ := p
      simp only
      have hne := transport_ne_noFrom g w rcpts email
        (sendEmail.rebuild w msg (formatEmailAddress name email))
      have hres : ¬ (g.config.SendFrom = "" ∧ Header.Get msg.Header "From" = "") := by
        rintro ⟨h1, h2⟩
        unfold sendEmail.resolve at hr
        simp [h1, h2] at hr
      exact ⟨⟨fun h => absurd h hne, fun h => absurd h hres⟩, fun h => absurd h hne⟩

/-- C8: if the server rejects a RCPT command of the run (the call `rcpt r`
made after the calls `pre` is answered with an error), then the only call
after it is the deferred close: no later RCPT, no DATA, no message bytes; the
run returns the recipient error; and the RCPT calls made before it are the
recipients of the list below the rejected one, each once and in list order,
with no DATA or write among the earlier calls. -/
theorem rcpt_rejection_aborts (g : Globals) (w : World) (rcpts : List String) (message : String)
    (pre post : List Action) (r : String)
    (htr : (sendEmail g w rcpts message).1 = pre ++ Action.rcpt r :: post)
    (hrej : w.reply pre (.rcpt r) = false) :
    post = [.close] ∧ (sendEmail g w rcpts message).2 = .error .recipient ∧
      ∃ i, rcpts.get? i = some r ∧
        pre.filter Action.isRcpt = (rcpts.take i).map Action.rcpt ∧
        Action.data ∉ pre ∧ ∀ m, Action.write m ∉ pre := by
  rcases sendEmail_shape g w rcpts message with hacc | ⟨t0, i, r1, h1, h2, h3, h4, h5⟩
  · have := hacc pre r post htr
    rw [hrej] at this
    cases this
  · rw [h3, List.append_assoc] at htr
    have key : pre = t0 ++ (rcpts.take i).map Action.rcpt ∧ r = r1 ∧ post = [.close] := by
      rcases List.append_eq_append_iff.1 htr with ⟨a, e1, e2⟩ | ⟨c, e1, e2⟩
      · cases a with
        | nil =>
          simp only [List.nil_append, List.singleton_append, List.cons.injEq,
            Action.rcpt.injEq] at e2
          simp only [List.append_nil] at e1
          exact ⟨e1, e2.1.symm, e2.2.symm⟩
        | cons x a =>
          simp only [List.cons_append, List.singleton_append, List.cons.injEq] at e2
          cases a with
          | nil =>
            simp only [List.nil_append, List.cons.injEq] at e2
            cases e2.2.1
          | cons y a =>
            have := congrArg List.length e2.2
            simp at this
      · cases c with
        | nil =>
          simp only [List.nil_append, List.singleton_append, List.cons.injEq,
            Action.rcpt.injEq] at e2
          simp only [List.append_nil] at e1
          exact ⟨e1.symm, e2.1, e2.2⟩
        | cons x c =>
          simp only [List.cons_append, List.cons.injEq] at e2
          have := h4 pre r c (by rw [e1, e2.1])
          rw [hrej] at this
          cases this
    obtain ⟨k1, k2, k3⟩ := key
    refine ⟨k3, h5, i, by rw [k2]; exact h1, ?_, ?_, ?_⟩
    · rw [k1, List.filter_append,
        List.filter_eq_nil_iff.2 (by
          intro a ha
          simp [beforeRcpt_noRcpt t0 h2 a ha]),
        List.filter_eq_self.2 (by
          intro a ha
          obtain ⟨x, _, rfl⟩ := List.mem_map.1 ha
          rfl)]
      simp
    · intro hd
      rw [k1] at hd
      rcases List.mem_append.1 hd with h | h
      · have := h2 _ h
        simp [Action.beforeRcpt] at this
      · obtain ⟨x, _, hx⟩ := List.mem_map.1 h
        cases hx
    · intro m hd
      rw [k1] at hd
      rcases List.mem_append.1 hd with h | h
      · have := h2 _ h
        simp [Action.beforeRcpt] at this
      · obtain ⟨x, _, hx⟩ := List.mem_map.1 h
        cases hx

/-- C8, at a concrete input: three recipients, the second one rejected. -/
theorem rcpt_rejection_aborts_witness :
    (sendEmail exGlobalsFrom exWorldReject ["r@x", "bad@x", "c@x"] "To: r@x\r\n\r\nhello").1
        = [.netDial "localhost:25", .newClient "localhost", .auth "user" "secret" "localhost",
            .mail "f@x", .rcpt "r@x"] ++ Action.rcpt "bad@x" :: [.close] ∧
      ([Action.close] = [.close] ∧
        (sendEmail exGlobalsFrom exWorldReject ["r@x", "bad@x", "c@x"]
          "To: r@x\r\n\r\nhello").2 = .error .recipient ∧
        ∃ i, ["r@x", "bad@x", "c@x"].get? i = some "bad@x" ∧
          ([Action.netDial "localhost:25", .newClient "localhost",
              .auth "user" "secret" "localhost", .mail "f@x", .rcpt "r@x"]).filter Action.isRcpt
            = (["r@x", "bad@x", "c@x"].take i).map Action.rcpt ∧
          Action.data ∉ [Action.netDial "localhost:25", .newClient "localhost",
              .auth "user" "secret" "localhost", .mail "f@x", .rcpt "r@x"] ∧
          ∀ m, Action.write m ∉ [Action.netDial "localhost:25", .newClient "localhost",
              .auth "user" "secret" "localhost", .mail "f@x", .rcpt "r@x"]) :=
  ⟨by decide!,
    rcpt_rejection_aborts exGlobalsFrom exWorldReject ["r@x", "bad@x", "c@x"]
      "To: r@x\r\n\r\nhello"
      [.netDial "localhost:25", .newClient "localhost", .auth "user" "secret" "localhost",
        .mail "f@x", .rcpt "r@x"] [.close] "bad@x" (by decide!) (by decide!)⟩

theorem late_flags (g : Globals) (rcpts : List String) (email message : String) (a : Action)
    (h : Late g rcpts email message a) :
    Action.isDial a = false ∧ Action.isStartTLS a = false ∧ Action.isExtension a = false := by
  rcases h with h | h | ⟨r, _, h⟩ | h | h | h | h <;> rw [h] <;> exact ⟨rfl, rfl, rfl⟩

/-- The stages after the upgrade start with AUTH. -/
theorem envelope_auth (g : Globals) (w : World) (rcpts : List String) (email message : String)
    (t : List Action) :
    ∃ s, (sendEmail.envelope g w rcpts email message t).1
        = t ++ .auth g.config.SMTPUser g.config.SMTPPassword g.config.SMTPHost :: s ∧
      ∀ a ∈ s, Late g rcpts email message a := by
  have hM : Late g rcpts email message (.mail email) := Or.inr (Or.inl rfl)
  unfold sendEmail.envelope
  simp only
  split
  · exact ⟨[], rfl, by simp⟩
  · split
    · refine ⟨[.mail email], by simp, ?_⟩
      intro a ha
      simp only [List.mem_singleton] at ha
      rw [ha]; exact hM
    · obtain ⟨s1, h1, h2⟩ := rcptLoop_ext w rcpts
        (t ++ [.auth g.config.SMTPUser g.config.SMTPPassword g.config.SMTPHost] ++ [.mail email])
      split
      · refine ⟨.mail email :: s1, by rw [h1]; simp, ?_⟩
        intro a ha
        simp only [List.mem_cons] at ha
        rcases ha with h | h
        · rw [h]; exact hM
        · exact Or.inr (Or.inr (Or.inl (h2 a h)))
      · obtain ⟨s2, h3, h4⟩ := content_ext g w rcpts message (sendEmail.rcptLoop w
          (t ++ [.auth g.config.SMTPUser g.config.SMTPPassword g.config.SMTPHost] ++ [.mail email])
          rcpts).1
        refine ⟨.mail email :: (s1 ++ s2), by rw [h3, h1]; simp, ?_⟩
        intro a ha
        simp only [List.mem_cons, List.mem_append] at ha
        rcases ha with h | h | h
        · rw [h]; exact hM
        · exact Or.inr (Or.inr (Or.inl (h2 a h)))
        · rcases h4 a h with h | h | h | h <;> simp [Late, h]

theorem tail_flags (g : Globals) (rcpts : List String) (email message : String) (a : Action)
    (h : Late g rcpts email message a ∨ a = .close) :
    Action.isDial a = false ∧ Action.isStartTLS a = false ∧ Action.isExtension a = false := by
  rcases h with h | h
  · exact late_flags g rcpts email message a h
  · rw [h]; exact ⟨rfl, rfl, rfl⟩

/-- The trace after the client is created, when no upgrade is attempted. -/
theorem envelope_close (g : Globals) (w : World) (rcpts : List String) (email message : String)
    (t : List Action) :
    ∃ rest, (sendEmail.envelope g w rcpts email message t).1 ++ [Action.close]
        = t ++ .auth g.config.SMTPUser g.config.SMTPPassword g.config.SMTPHost :: rest ∧
      ∀ a ∈ rest, Late g rcpts email message a ∨ a = .close := by
  obtain ⟨s, h1, h2⟩ := envelope_auth g w rcpts email message t
  refine ⟨s ++ [.close], by rw [h1]; simp, ?_⟩
  intro a ha
  rcases List.mem_append.1 ha with h | h
  · exact Or.inl (h2 a h)
  · exact Or.inr (by simpa using h)

/-- The run of the transport stage in mode `TLS`, by the answers of the server
to the dial, the client creation and the STARTTLS query. -/
theorem transport_tls (g : Globals) (w : World) (rcpts : List String) (email message : String)
    (hsec : g.config.SMTPSecurity = "TLS") :
    (w.reply [] (.netDial (JoinHostPort g.config.SMTPHost g.config.SMTPPort)) = false →
      (sendEmail.transport g w rcpts email message).1
        = [.netDial (JoinHostPort g.config.SMTPHost g.config.SMTPPort)]) ∧
    (w.reply [] (.netDial (JoinHostPort g.config.SMTPHost g.config.SMTPPort)) = true →
      w.reply [.netDial (JoinHostPort g.config.SMTPHost g.config.SMTPPort)]
        (.newClient g.config.SMTPHost) = false →
      (sendEmail.transport g w rcpts email message).1
        = [.netDial (JoinHostPort g.config.SMTPHost g.config.SMTPPort),
            .newClient g.config.SMTPHost]) ∧
    (w.reply [] (.netDial (JoinHostPort g.config.SMTPHost g.config.SMTPPort)) = true →
      w.reply [.netDial (JoinHostPort g.config.SMTPHost g.config.SMTPPort)]
        (.newClient g.config.SMTPHost) = true →
      w.reply [.netDial (JoinHostPort g.config.SMTPHost g.config.SMTPPort),
        .newClient g.config.SMTPHost] (.extension "STARTTLS") = true →
      ∃ rest, (sendEmail.transport g w rcpts email message).1
          = .netDial (JoinHostPort g.config.SMTPHost g.config.SMTPPort) ::
            .newClient g.config.SMTPHost :: .extension "STARTTLS" ::
            .startTLS g.config.SMTPHost :: rest ∧
        ∀ a ∈ rest, Late g rcpts email message a ∨ a = .close) ∧
    (w.reply [] (.netDial (JoinHostPort g.config.SMTPHost g.config.SMTPPort)) = true →
      w.reply [.netDial (JoinHostPort g.config.SMTPHost g.config.SMTPPort)]
        (.newClient g.config.SMTPHost) = true →
      w.reply [.netDial (JoinHostPort g.config.SMTPHost g.config.SMTPPort),
        .newClient g.config.SMTPHost] (.extension "STARTTLS") = false →
      (∃ rest, (sendEmail.transport g w rcpts email message).1
          = .netDial (JoinHostPort g.config.SMTPHost g.config.SMTPPort) ::
            .newClient g.config.SMTPHost :: .extension "STARTTLS" ::
            .auth g.config.SMTPUser g.config.SMTPPassword g.config.SMTPHost :: rest ∧
        ∀ a ∈ rest, Late g rcpts email message a ∨ a = .close) ∧
      (sendEmail.transport g w rcpts email message).2 ≠ .error .startTLS) := by
  have hd : sendEmail.dial g = .netDial (JoinHostPort g.config.SMTPHost g.config.SMTPPort) := by
    unfold sendEmail.dial
    have : ¬ g.config.SMTPSecurity = "SSL" := by rw [hsec]; decide
    simp only [this, if_false]
  refine ⟨?_, ?_, ?_, ?_⟩
  · intro r1
    unfold sendEmail.transport
    simp only [hd, r1, Bool.not_false, if_true]
  · intro r1 r2
    unfold sendEmail.transport
    simp only [hd, r1, r2, Bool.not_false, Bool.not_true, Bool.false_eq_true, if_true, if_false]
  · intro r1 r2 r3
    unfold sendEmail.transport
    simp only [hd, r1, r2, Bool.not_true, Bool.false_eq_true, if_false]
    unfold sendEmail.session
    rw [if_pos hsec, if_pos r3]
    simp only
    split
    · exact ⟨[.close], by simp, by simp⟩
    · obtain ⟨rest, h1, h2⟩ := envelope_close g w rcpts email message
        ([.netDial (JoinHostPort g.config.SMTPHost g.config.SMTPPort),
          .newClient g.config.SMTPHost] ++ [.extension "STARTTLS"] ++
          [.startTLS g.config.SMTPHost])
      refine ⟨.auth g.config.SMTPUser g.config.SMTPPassword g.config.SMTPHost :: rest,
        by rw [h1]; simp, ?_⟩
      intro a ha
      rcases List.mem_cons.1 ha with h | h
      · rw [h]; exact Or.inl (Or.inl rfl)
      · exact h2 a h
  · intro r1 r2 r3
    unfold sendEmail.transport
    simp only [hd, r1, r2, Bool.not_true, Bool.false_eq_true, if_false]
    unfold sendEmail.session
    rw [if_pos hsec, if_neg (by rw [r3]; simp)]
    obtain ⟨rest, h1, h2⟩ := envelope_close g w rcpts email message
      ([.netDial (JoinHostPort g.config.SMTPHost g.config.SMTPPort),
        .newClient g.config.SMTPHost] ++ [.extension "STARTTLS"])
    exact ⟨⟨rest, by rw [h1]; simp, h2⟩, (envelope_ne g w rcpts email message _).2⟩

/-- The connection actions of the transport stage in each security mode. -/
theorem transport_modes (g : Globals) (w : World) (rcpts : List String) (email message : String) :
    (g.config.SMTPSecurity = "SSL" →
      ∃ rest, (sendEmail.transport g w rcpts email message).1
          = .tlsDial (JoinHostPort g.config.SMTPHost g.config.SMTPPort) :: rest ∧
        ∀ a ∈ rest, Action.isDial a = false ∧ Action.isStartTLS a = false ∧
          Action.isExtension a = false) ∧
    (g.config.SMTPSecurity = "TLS" →
      (∃ rest, (sendEmail.transport g w rcpts email message).1
          = .netDial (JoinHostPort g.config.SMTPHost g.config.SMTPPort) :: rest ∧
        ∀ a ∈ rest, Action.isDial a = false) ∧
      ((∃ a ∈ (sendEmail.transport g w rcpts email message).1, Action.isStartTLS a = true) ↔
        (w.reply [] (.netDial (JoinHostPort g.config.SMTPHost g.config.SMTPPort)) = true ∧
          w.reply [.netDial (JoinHostPort g.config.SMTPHost g.config.SMTPPort)]
            (.newClient g.config.SMTPHost) = true ∧
          w.reply [.netDial (JoinHostPort g.config.SMTPHost g.config.SMTPPort),
            .newClient g.config.SMTPHost] (.extension "STARTTLS") = true)) ∧
      (w.reply [] (.netDial (JoinHostPort g.config.SMTPHost g.config.SMTPPort)) = true →
        w.reply [.netDial (JoinHostPort g.config.SMTPHost g.config.SMTPPort)]
          (.newClient g.config.SMTPHost) = true →
        w.reply [.netDial (JoinHostPort g.config.SMTPHost g.config.SMTPPort),
          .newClient g.config.SMTPHost] (.extension "STARTTLS") = true →
        ∃ rest, (sendEmail.transport g w rcpts email message).1
          = [.netDial (JoinHostPort g.config.SMTPHost g.config.SMTPPort),
              .newClient g.config.SMTPHost, .extension "STARTTLS",
              .startTLS g.config.SMTPHost] ++ rest) ∧
      (w.reply [] (.netDial (JoinHostPort g.config.SMTPHost g.config.SMTPPort)) = true →
        w.reply [.netDial (JoinHostPort g.config.SMTPHost g.config.SMTPPort)]
          (.newClient g.config.SMTPHost) = true →
        w.reply [.netDial (JoinHostPort g.config.SMTPHost g.config.SMTPPort),
          .newClient g.config.SMTPHost] (.extension "STARTTLS") = false →
        (∃ rest, (sendEmail.transport g w rcpts email message).1
          = [.netDial (JoinHostPort g.config.SMTPHost g.config.SMTPPort),
              .newClient g.config.SMTPHost, .extension "STARTTLS",
              .auth g.config.SMTPUser g.config.SMTPPassword g.config.SMTPHost] ++ rest) ∧
          (sendEmail.transport g w rcpts email message).2 ≠ .error .startTLS)) ∧
    (g.config.SMTPSecurity ≠ "SSL" → g.config.SMTPSecurity ≠ "TLS" →
      ∃ rest, (sendEmail.transport g w rcpts email message).1
          = .netDial (JoinHostPort g.config.SMTPHost g.config.SMTPPort) :: rest ∧
        ∀ a ∈ rest, Action.isDial a = false ∧ Action.isStartTLS a = false ∧
          Action.isExtension a = false) := by
  have hplain : ∀ d : Action, sendEmail.dial g = d → g.config.SMTPSecurity ≠ "TLS" →
      ∃ rest, (sendEmail.transport g w rcpts email message).1 = d :: rest ∧
        ∀ a ∈ rest, Action.isDial a = false ∧ Action.isStartTLS a = false ∧
          Action.isExtension a = false := by
    intro d hd hsec
    unfold sendEmail.transport
    simp only [hd]
    split
    · exact ⟨[], rfl, by simp⟩
    · split
      · refine ⟨[.newClient g.config.SMTPHost], rfl, ?_⟩
        intro a ha
        simp only [List.mem_singleton] at ha
        rw [ha]; exact ⟨rfl, rfl, rfl⟩
      · unfold sendEmail.session
        rw [if_neg hsec]
        obtain ⟨rest, h1, h2⟩ := envelope_close g w rcpts email message
          [d, .newClient g.config.SMTPHost]
        refine ⟨.newClient g.config.SMTPHost ::
          .auth g.config.SMTPUser g.config.SMTPPassword g.config.SMTPHost :: rest,
          by simp only [h1]; simp, ?_⟩
        intro a ha
        rcases List.mem_cons.1 ha with h | h
        · rw [h]; exact ⟨rfl, rfl, rfl⟩
        · rcases List.mem_cons.1 h with h | h
          · rw [h]; exact ⟨rfl, rfl, rfl⟩
          · exact tail_flags g rcpts email message a (h2 a h)
  refine ⟨?_, ?_, ?_⟩
  · intro hsec
    refine hplain _ (by unfold sendEmail.dial; simp only [hsec, if_true]) ?_
    rw [hsec]; decide
  · intro hsec
    obtain ⟨t1, t2, t3, t4⟩ := transport_tls g w rcpts email message hsec
    have hflag : ∀ rest : List Action, (∀ a ∈ rest, Late g rcpts email message a ∨ a = .close) →
        ∀ a ∈ rest, Action.isDial a = false ∧ Action.isStartTLS a = false ∧
          Action.isExtension a = false :=
      fun rest hs a ha => tail_flags g rcpts email message a (hs a ha)
    by_cases r1 : w.reply [] (.netDial (JoinHostPort g.config.SMTPHost g.config.SMTPPort)) = true
    · by_cases r2 : w.reply [.netDial (JoinHostPort g.config.SMTPHost g.config.SMTPPort)]
          (.newClient g.config.SMTPHost) = true
      · by_cases r3 : w.reply [.netDial (JoinHostPort g.config.SMTPHost g.config.SMTPPort),
            .newClient g.config.SMTPHost] (.extension "STARTTLS") = true
        · obtain ⟨rest, h1, h2⟩ := t3 r1 r2 r3
          refine ⟨⟨_, h1, ?_⟩, ⟨fun _ => ⟨r1, r2, r3⟩, fun _ =>
            ⟨.startTLS g.config.SMTPHost, by rw [h1]; simp, rfl⟩⟩, fun _ _ _ => ⟨rest, h1⟩, ?_⟩
          · intro a ha
            rcases List.mem_cons.1 ha with h | h
            · rw [h]; rfl
            · rcases List.mem_cons.1 h with h | h
              · rw [h]; rfl
              · rcases List.mem_cons.1 h with h | h
                · rw [h]; rfl
                · exact (hflag rest h2 a h).1
          · intro _ _ r3f
            rw [r3] at r3f
            cases r3f
        · simp only [Bool.not_eq_true] at r3
          obtain ⟨⟨rest, h1, h2⟩, h3⟩ := t4 r1 r2 r3
          refine ⟨⟨_, h1, ?_⟩, ⟨?_, fun h => ?_⟩, ?_, fun _ _ _ => ⟨⟨rest, h1⟩, h3⟩⟩
          · intro a ha
            rcases List.mem_cons.1 ha with h | h
            · rw [h]; rfl
            · rcases List.mem_cons.1 h with h | h
              · rw [h]; rfl
              · rcases List.mem_cons.1 h with h | h
                · rw [h]; rfl
                · exact (hflag rest h2 a h).1
          · rintro ⟨a, ha, hs⟩
            exfalso
            rw [h1] at ha
            rcases List.mem_cons.1 ha with h | h
            · rw [h] at hs; cases hs
            · rcases List.mem_cons.1 h with h | h
              · rw [h] at hs; cases hs
              · rcases List.mem_cons.1 h with h | h
                · rw [h] at hs; cases hs
                · rcases List.mem_cons.1 h with h | h
                  · rw [h] at hs; cases hs
                  · rw [(hflag rest h2 a h).2.1] at hs; cases hs
          · rw [r3] at h
            cases h.2.2
          · intro _ _ r3t
            rw [r3] at r3t
            cases r3t
      · simp only [Bool.not_eq_true] at r2
        have h1 := t2 r1 r2
        refine ⟨⟨_, h1, ?_⟩, ⟨?_, fun h => ?_⟩, ?_, ?_⟩
        · intro a ha
          simp only [List.mem_singleton] at ha
          rw [ha]; rfl
        · rintro ⟨a, ha, hs⟩
          exfalso
          rw [h1] at ha
          rcases List.mem_cons.1 ha with h | h
          · rw [h] at hs; cases hs
          · simp only [List.mem_singleton] at h
            rw [h] at hs; cases hs
        · rw [r2] at h
          cases h.2.1
        · intro _ r2t
          rw [r2] at r2t
          cases r2t
        · intro _ r2t
          rw [r2] at r2t
          cases r2t
    · simp only [Bool.not_eq_true] at r1
      have h1 := t1 r1
      refine ⟨⟨_, h1, by simp⟩, ⟨?_, fun h => ?_⟩, ?_, ?_⟩
      · rintro ⟨a, ha, hs⟩
        exfalso
        rw [h1] at ha
        simp only [List.mem_singleton] at ha
        rw [ha] at hs; cases hs
      · rw [r1] at h
        cases h.1
      · intro r1t
        rw [r1] at r1t
        cases r1t
      · intro r1t
        rw [r1] at r1t
        cases r1t
  · intro h1 h2
    exact hplain _ (by unfold sendEmail.dial; simp only [h1, if_false]) h2

theorem sendEmail_rebuild (g : Globals) (w : World) (rcpts : List String) (message : String)
    (msg : Message) (name email : String) (hm : ReadMessage w message = some msg)
    (hr : sendEmail.resolve g w msg = .ok (name, email)) :
    sendEmail g w rcpts message = sendEmail.transport g w rcpts email
      (sendEmail.rebuild w msg (formatEmailAddress name email)) := by
  unfold sendEmail
  rw [hm]
  simp only [hr]

theorem rcptLoop_accepted (w : World)
    (hacc : ∀ t a, Action.afterUpgrade a = true → w.reply t a = true) (rcpts : List String)
    (t : List Action) : sendEmail.rcptLoop w t rcpts = (t ++ rcpts.map Action.rcpt, true) := by
  induction rcpts generalizing t with
  | nil => simp [sendEmail.rcptLoop]
  | cons r rs ih =>
    unfold sendEmail.rcptLoop
    rw [if_pos (hacc t (.rcpt r) rfl), ih]
    simp

/-- When AUTH and the later commands are accepted, the stages after the
upgrade run to the end: AUTH, MAIL, one RCPT per recipient, DATA, the message,
the end of data, the log line, and no error. -/
theorem envelope_accepted (g : Globals) (w : World)
    (hacc : ∀ t a, Action.afterUpgrade a = true → w.reply t a = true)
    (rcpts : List String) (email message : String) (t : List Action) :
    sendEmail.envelope g w rcpts email message t
      = (t ++ .auth g.config.SMTPUser g.config.SMTPPassword g.config.SMTPHost ::
          .mail email :: (rcpts.map Action.rcpt ++ .data :: .write message :: .closeData ::
            sendEmail.logCalls g rcpts), .ok ()) := by
  have hA : ∀ t u p h, w.reply t (.auth u p h) = true := fun t u p h => hacc t _ rfl
  have hM : ∀ t x, w.reply t (.mail x) = true := fun t x => hacc t _ rfl
  have hD : ∀ t, w.reply t .data = true := fun t => hacc t _ rfl
  have hW : ∀ t m, w.reply t (.write m) = true := fun t m => hacc t _ rfl
  have hC : ∀ t, w.reply t .closeData = true := fun t => hacc t _ rfl
  unfold sendEmail.envelope
  simp only [hA, hM, Bool.not_true, Bool.false_eq_true, if_false,
    rcptLoop_accepted w hacc]
  unfold sendEmail.content sendEmail.logCalls
  simp only [hD, hW, hC, Bool.not_true, Bool.false_eq_true, if_false]
  split
  · simp
  · split <;> simp

/-- Mode `TLS` with a server that does not advertise STARTTLS: the run when
AUTH and the later commands are accepted, and the run when `smtp.PlainAuth`
refuses the cleartext connection. -/
theorem transport_tls_cleartext (g : Globals) (w : World) (rcpts : List String)
    (email message : String) (hsec : g.config.SMTPSecurity = "TLS")
    (r1 : w.reply [] (.netDial (JoinHostPort g.config.SMTPHost g.config.SMTPPort)) = true)
    (r2 : w.reply [.netDial (JoinHostPort g.config.SMTPHost g.config.SMTPPort)]
      (.newClient g.config.SMTPHost) = true)
    (r3 : w.reply [.netDial (JoinHostPort g.config.SMTPHost g.config.SMTPPort),
      .newClient g.config.SMTPHost] (.extension "STARTTLS") = false) :
    ((∀ t a, Action.afterUpgrade a = true → w.reply t a = true) →
      sendEmail.transport g w rcpts email message
        = (.netDial (JoinHostPort g.config.SMTPHost g.config.SMTPPort) ::
            .newClient g.config.SMTPHost :: .extension "STARTTLS" ::
            .auth g.config.SMTPUser g.config.SMTPPassword g.config.SMTPHost ::
            .mail email :: (rcpts.map Action.rcpt ++ .data :: .write message ::
              .closeData :: (sendEmail.logCalls g rcpts ++ [.close])), .ok ())) ∧
    (w.PlainAuthOk → isLocalhost g.config.SMTPHost = false →
      sendEmail.transport g w rcpts email message
        = ([.netDial (JoinHostPort g.config.SMTPHost g.config.SMTPPort),
            .newClient g.config.SMTPHost, .extension "STARTTLS",
            .auth g.config.SMTPUser g.config.SMTPPassword g.config.SMTPHost, .close],
          .error .auth)) := by
  have hd : sendEmail.dial g = .netDial (JoinHostPort g.config.SMTPHost g.config.SMTPPort) := by
    unfold sendEmail.dial
    have : ¬ g.config.SMTPSecurity = "SSL" := by rw [hsec]; decide
    simp only [this, if_false]
  refine ⟨?_, ?_⟩
  · intro hacc
    unfold sendEmail.transport
    simp only [hd, r1, r2, Bool.not_true, Bool.false_eq_true, if_false]
    unfold sendEmail.session
    rw [if_pos hsec, if_neg (by rw [r3]; simp), envelope_accepted g w hacc]
    simp
  · intro hpa hloc
    have hrej := hpa ([Action.netDial (JoinHostPort g.config.SMTPHost g.config.SMTPPort),
      Action.newClient g.config.SMTPHost] ++ [Action.extension "STARTTLS"]) g.config.SMTPUser
      g.config.SMTPPassword g.config.SMTPHost rfl hloc
    unfold sendEmail.transport
    simp only [hd, r1, r2, Bool.not_true, Bool.false_eq_true, if_false]
    unfold sendEmail.session
    rw [if_pos hsec, if_neg (by rw [r3]; simp)]
    unfold sendEmail.envelope
    simp only [hrej, Bool.not_false, if_true]
    simp

/-- C9 as stated fails in its clause on mode `TLS` without STARTTLS: with
the server `mail.example.com`, which does not advertise STARTTLS and accepts
every command, delivery does not continue in cleartext.  `smtp.PlainAuth`
refuses the connection that is neither encrypted nor to localhost, and
`sendEmail` returns the authentication error after the STARTTLS query, with no
MAIL, RCPT or DATA.  The same server reached as `localhost` gets the message. -/
theorem cleartext_auth_counterexample :
    exGlobalsRemoteTLS.config.SMTPSecurity = "TLS" ∧
      isLocalhost exGlobalsRemoteTLS.config.SMTPHost = false ∧
      sendEmail exGlobalsRemoteTLS exWorldCleartext ["r@x"] "To: r@x\r\n\r\nhello"
        = ([.netDial "mail.example.com:25", .newClient "mail.example.com",
            .extension "STARTTLS", .auth "user" "secret" "mail.example.com", .close],
          .error .auth) ∧
      sendEmail exGlobalsTLS exWorldCleartext ["r@x"] "To: r@x\r\n\r\nhello"
        = ([.netDial "localhost:25", .newClient "localhost", .extension "STARTTLS",
            .auth "user" "secret" "localhost", .mail "f@x", .rcpt "r@x", .data,
            .write "To: r@x\r\nFrom: f@x\r\n\r\nhello", .closeData, .close],
          .ok ()) := by
  decide!

/-- C9, amended: for a message that parses and whose sender resolves, the
connection actions of `sendEmail` follow the security mode.  `SSL`: the first
call is `tls.Dial`, and no other dial, STARTTLS query or STARTTLS upgrade
follows.  `TLS`: the first call is the cleartext `net.Dial`; STARTTLS is
issued if and only if the dial and the client creation succeed and the server
advertises STARTTLS, and then right after the query.  When the server does not
advertise it, no STARTTLS error is returned and the next call is AUTH on the
cleartext connection: if AUTH and the later commands are accepted, the run is
exactly AUTH, MAIL, one RCPT per recipient, DATA, the rewritten message, the
end of data, the log line and the close, with no error; if the host is not
localhost, `smtp.PlainAuth` refuses the cleartext connection and the run ends
with the authentication error right after AUTH.  Any other mode (`None`
included): the first call is `net.Dial` and neither a STARTTLS query nor an
upgrade is made, whatever the server answers. -/
theorem security_modes (g : Globals) (w : World) (rcpts : List String) (message : String)
    (msg : Message) (name email : String) (hm : ReadMessage w message = some msg)
    (hr : sendEmail.resolve g w msg = .ok (name, email)) :
    (g.config.SMTPSecurity = "SSL" →
      ∃ rest, (sendEmail g w rcpts message).1
          = .tlsDial (JoinHostPort g.config.SMTPHost g.config.SMTPPort) :: rest ∧
        ∀ a ∈ rest, Action.isDial a = false ∧ Action.isStartTLS a = false ∧
          Action.isExtension a = false) ∧
    (g.config.SMTPSecurity = "TLS" →
      (∃ rest, (sendEmail g w rcpts message).1
          = .netDial (JoinHostPort g.config.SMTPHost g.config.SMTPPort) :: rest ∧
        ∀ a ∈ rest, Action.isDial a = false) ∧
      ((∃ a ∈ (sendEmail g w rcpts message).1, Action.isStartTLS a = true) ↔
        (w.reply [] (.netDial (JoinHostPort g.config.SMTPHost g.config.SMTPPort)) = true ∧
          w.reply [.netDial (JoinHostPort g.config.SMTPHost g.config.SMTPPort)]
            (.newClient g.config.SMTPHost) = true ∧
          w.reply [.netDial (JoinHostPort g.config.SMTPHost g.config.SMTPPort),
            .newClient g.config.SMTPHost] (.extension "STARTTLS") = true)) ∧
      (w.reply [] (.netDial (JoinHostPort g.config.SMTPHost g.config.SMTPPort)) = true →
        w.reply [.netDial (JoinHostPort g.config.SMTPHost g.config.SMTPPort)]
          (.newClient g.config.SMTPHost) = true →
        w.reply [.netDial (JoinHostPort g.config.SMTPHost g.config.SMTPPort),
          .newClient g.config.SMTPHost] (.extension "STARTTLS") = true →
        ∃ rest, (sendEmail g w rcpts message).1
          = [.netDial (JoinHostPort g.config.SMTPHost g.config.SMTPPort),
              .newClient g.config.SMTPHost, .extension "STARTTLS",
              .startTLS g.config.SMTPHost] ++ rest) ∧
      (w.reply [] (.netDial (JoinHostPort g.config.SMTPHost g.config.SMTPPort)) = true →
        w.reply [.netDial (JoinHostPort g.config.SMTPHost g.config.SMTPPort)]
          (.newClient g.config.SMTPHost) = true →
        w.reply [.netDial (JoinHostPort g.config.SMTPHost g.config.SMTPPort),
          .newClient g.config.SMTPHost] (.extension "STARTTLS") = false →
        (∃ rest, (sendEmail g w rcpts message).1
          = [.netDial (JoinHostPort g.config.SMTPHost g.config.SMTPPort),
              .newClient g.config.SMTPHost, .extension "STARTTLS",
              .auth g.config.SMTPUser g.config.SMTPPassword g.config.SMTPHost] ++ rest) ∧
          (sendEmail g w rcpts message).2 ≠ .error .startTLS) ∧
      (w.reply [] (.netDial (JoinHostPort g.config.SMTPHost g.config.SMTPPort)) = true →
        w.reply [.netDial (JoinHostPort g.config.SMTPHost g.config.SMTPPort)]
          (.newClient g.config.SMTPHost) = true →
        w.reply [.netDial (JoinHostPort g.config.SMTPHost g.config.SMTPPort),
          .newClient g.config.SMTPHost] (.extension "STARTTLS") = false →
        (∀ t a, Action.afterUpgrade a = true → w.reply t a = true) →
        sendEmail g w rcpts message
          = (.netDial (JoinHostPort g.config.SMTPHost g.config.SMTPPort) ::
              .newClient g.config.SMTPHost :: .extension "STARTTLS" ::
              .auth g.config.SMTPUser g.config.SMTPPassword g.config.SMTPHost ::
              .mail email :: (rcpts.map Action.rcpt ++ .data ::
                .write (sendEmail.rebuild w msg (formatEmailAddress name email)) ::
                .closeData :: (sendEmail.logCalls g rcpts ++ [.close])), .ok ())) ∧
      (w.reply [] (.netDial (JoinHostPort g.config.SMTPHost g.config.SMTPPort)) = true →
        w.reply [.netDial (JoinHostPort g.config.SMTPHost g.config.SMTPPort)]
          (.newClient g.config.SMTPHost) = true →
        w.reply [.netDial (JoinHostPort g.config.SMTPHost g.config.SMTPPort),
          .newClient g.config.SMTPHost] (.extension "STARTTLS") = false →
        w.PlainAuthOk → isLocalhost g.config.SMTPHost = false →
        sendEmail g w rcpts message
          = ([.netDial (JoinHostPort g.config.SMTPHost g.config.SMTPPort),
              .newClient g.config.SMTPHost, .extension "STARTTLS",
              .auth g.config.SMTPUser g.config.SMTPPassword g.config.SMTPHost, .close],
            .error .auth))) ∧
    (g.config.SMTPSecurity ≠ "SSL" → g.config.SMTPSecurity ≠ "TLS" →
      ∃ rest, (sendEmail g w rcpts message).1
          = .netDial (JoinHostPort g.config.SMTPHost g.config.SMTPPort) :: rest ∧
        ∀ a ∈ rest, Action.isDial a = false ∧ Action.isStartTLS a = false ∧
          Action.isExtension a = false) := by
  rw [sendEmail_rebuild g w rcpts message msg name email hm hr]
  obtain ⟨hS, hT, hN⟩ := transport_modes g w rcpts email
    (sendEmail.rebuild w msg (formatEmailAddress name email))
  refine ⟨hS, fun hsec => ?_, hN⟩
  obtain ⟨a1, a2, a3, a4⟩ := hT hsec
  exact ⟨a1, a2, a3, a4,
    fun r1 r2 r3 => (transport_tls_cleartext g w rcpts email _ hsec r1 r2 r3).1,
    fun r1 r2 r3 => (transport_tls_cleartext g w rcpts email _ hsec r1 r2 r3).2⟩

/-- C9 amended, at concrete inputs: mode `TLS` and a server that does not
advertise STARTTLS, reached as `localhost` (the message is delivered in
cleartext) and as `mail.example.com` (authentication is refused). -/
theorem security_modes_witness :
    sendEmail exGlobalsTLS exWorldNoStartTLS ["r@x"] "To: r@x\r\n\r\nhello"
        = (.netDial (JoinHostPort exGlobalsTLS.config.SMTPHost exGlobalsTLS.config.SMTPPort) ::
            .newClient exGlobalsTLS.config.SMTPHost :: .extension "STARTTLS" ::
            .auth exGlobalsTLS.config.SMTPUser exGlobalsTLS.config.SMTPPassword
              exGlobalsTLS.config.SMTPHost ::
            .mail "f@x" :: (["r@x"].map Action.rcpt ++ .data ::
              .write (sendEmail.rebuild exWorldNoStartTLS
                { Header := ReadMIMEHeader [("To", "r@x")], Body := "hello" }
                (formatEmailAddress "" "f@x")) ::
              .closeData :: (sendEmail.logCalls exGlobalsTLS ["r@x"] ++ [.close])), .ok ()) ∧
      sendEmail exGlobalsRemoteTLS exWorldCleartext ["r@x"] "To: r@x\r\n\r\nhello"
        = ([.netDial (JoinHostPort exGlobalsRemoteTLS.config.SMTPHost
              exGlobalsRemoteTLS.config.SMTPPort),
            .newClient exGlobalsRemoteTLS.config.SMTPHost, .extension "STARTTLS",
            .auth exGlobalsRemoteTLS.config.SMTPUser exGlobalsRemoteTLS.config.SMTPPassword
              exGlobalsRemoteTLS.config.SMTPHost, .close],
          .error .auth) :=
  ⟨((security_modes exGlobalsTLS exWorldNoStartTLS ["r@x"] "To: r@x\r\n\r\nhello"
      { Header := ReadMIMEHeader [("To", "r@x")], Body := "hello" } "" "f@x"
      (by decide!) (by decide!)).2.1 (by decide!)).2.2.2.2.1 (by decide!) (by decide!)
      (by decide!) (fun _ a h => by cases a <;> first | rfl | cases h),
    ((security_modes exGlobalsRemoteTLS exWorldCleartext ["r@x"] "To: r@x\r\n\r\nhello"
      { Header := ReadMIMEHeader [("To", "r@x")], Body := "hello" } "" "f@x"
      (by decide!) (by decide!)).2.1 (by decide!)).2.2.2.2.2 (by decide!) (by decide!)
      (by decide!)
      (fun t _ _ host ht hh => by
        show (encrypted t || isLocalhost host) = false
        rw [ht, hh]; rfl)
      (by decide!)⟩

/-- C10: when `main` reaches recipient resolution (it is not run with
`-setup`) and the resolved list, the positional arguments or with `-t` the
header-derived list, is empty, `main` ends with a fatal error and makes no
network call: `sendEmail` is not run.  When the configuration file and the
log file were usable the error is `No recipients specified`. -/
theorem no_recipients_fatal (g : Globals) (w : World) (message : String)
    (hs : g.setup = false) (hin : w.stdin = some message)
    (hrec : main.recipients g w message = some []) :
    (main g w).1 = [] ∧ (∃ m, (main g w).2 = .fatal m) ∧
      (w.configFileOk = true → w.logFileOk = true →
        (main g w).2 = .fatal "No recipients specified") := by
  unfold main
  simp only [hs, Bool.false_eq_true, if_false, hin, hrec, List.length_nil, if_true]
  by_cases h1 : w.configFileOk = true
  · by_cases h2 : w.logFileOk = true
    · simp [h1, h2]
    · simp [h1, h2]
  · simp [h1]

/-- C10, at a concrete input: no positional argument and no `-t`. -/
theorem no_recipients_fatal_witness :
    main exGlobalsNone (exWorld [("To", "r@x")] "hello" id) = ([], .fatal "No recipients specified") :=
  Prod.ext
    (no_recipients_fatal exGlobalsNone (exWorld [("To", "r@x")] "hello" id) "" rfl rfl rfl).1
    ((no_recipients_fatal exGlobalsNone (exWorld [("To", "r@x")] "hello" id) "" rfl rfl rfl).2.2
      rfl rfl)

/-- C7 amended, at a concrete input: `-f s@x`, no send-from, no `From` header. -/
theorem noFrom_iff_witness :
    (sendEmail exGlobalsSender (exWorld [("To", "r@x")] "hello" id) ["r@x"]
      "To: r@x\r\n\r\nhello").1 = [] :=
  (noFrom_iff exGlobalsSender (exWorld [("To", "r@x")] "hello" id) ["r@x"]
    "To: r@x\r\n\r\nhello").2 (by decide!)

end Smtplmail
